import Mathlib

/-!
Verification of the XcodeBuildMCP workspace-daemon front end.

This development shallowly embeds the relevant parts of the repository:

* `src/mcp/tools/doctor/doctor.ts` — the doctor tool: the bridge status
  probe (`getXcodeToolsBridgeDoctorInfo`), the redaction machinery
  (`sanitizeValue`, `redactPathLikeValue`, the sensitive-key patterns),
  the environment save/restore in `runDoctor`, and the formatted output.
* `scripts/check-docs-cli-commands.js` — the docs command checker
  (`findInvalidCommands` and its validity sets).
* `src/cli/commands/init.ts` — target resolution for the `init` command
  (`resolveTargets`) and the command handler flow.
* The workspace daemon core (workspace key resolver, daemon lifecycle,
  session registry, bridge connection manager), whose implementation files
  are not part of the visible sources; those parts are modelled from the
  design document, as marked on each definition.

Effectful TypeScript is embedded by making the results of external probes
explicit inputs (`Except String α` for fallible calls) and environment
mutation explicit state passing.
-/

namespace Spec2Proof

/-! ## Bridge status surface (src/mcp/tools/doctor/doctor.ts, lines 109-162) -/

/-- The status record returned by `manager.getStatus()` on a live
`XcodeToolsBridgeManager` (fields as read in doctor.ts lines 130-139). -/
structure BridgeManagerStatus where
  workflowEnabled : Bool
  bridgePath : Option String
  xcodeRunning : Option Bool
  connected : Bool
  bridgePid : Option Int
  proxiedToolCount : Nat
  lastError : Option String
deriving Repr, DecidableEq

/-- Result of `getMcpBridgeAvailability()`: either the bridge binary was
found at a path, or not (doctor.ts line 142-143 reads `.available` and
`.path`). -/
inductive McpBridgeAvailability where
  | found (path : String)
  | missing
deriving Repr, DecidableEq

/-- Result of running a command through the `CommandExecutor`
(`success` and `output` as read at doctor.ts lines 144-147). -/
structure ExecResult where
  success : Bool
  output : String
deriving Repr, DecidableEq

/-- The `XcodeToolsBridgeDoctorInfo` union type (doctor.ts lines 109-120):
either an `available: true` snapshot with exactly the seven data fields,
or an `available: false` record carrying a reason string. -/
inductive XcodeToolsBridgeDoctorInfo where
  | available (workflowEnabled : Bool) (bridgePath : Option String)
      (xcodeRunning : Option Bool) (connected : Bool) (bridgePid : Option Int)
      (proxiedToolCount : Nat) (lastError : Option String)
  | unavailable (reason : String)
deriving Repr, DecidableEq

/-- Shallow embedding of `getXcodeToolsBridgeDoctorInfo` (doctor.ts lines
122-162).  The three effectful probes are passed as explicit inputs:
`manager` is `peekXcodeToolsBridgeManager()` together with the outcome of
`manager.getStatus()` when a manager exists, `bridgeProbe` is
`getMcpBridgeAvailability()`, and `pgrepXcode` is the
`executor(['pgrep','-x','Xcode'])` call.  A `.error e` input models the
corresponding call throwing with message `e`; the surrounding
`try`/`catch` turns the first such throw into `{available:false, reason}`.
Probes are consulted in source order, and later probes are not executed
once an earlier one throws. -/
def getXcodeToolsBridgeDoctorInfo
    (manager : Option (Except String BridgeManagerStatus))
    (bridgeProbe : Except String McpBridgeAvailability)
    (pgrepXcode : Except String ExecResult)
    (workflowEnabled : Bool) : XcodeToolsBridgeDoctorInfo :=
  match manager with
  | some (Except.error e) => XcodeToolsBridgeDoctorInfo.unavailable e
  | some (Except.ok status) =>
      XcodeToolsBridgeDoctorInfo.available status.workflowEnabled status.bridgePath
        status.xcodeRunning status.connected status.bridgePid
        status.proxiedToolCount status.lastError
  | none =>
      match bridgeProbe with
      | Except.error e => XcodeToolsBridgeDoctorInfo.unavailable e
      | Except.ok bridgeInfo =>
          match pgrepXcode with
          | Except.error e => XcodeToolsBridgeDoctorInfo.unavailable e
          | Except.ok r =>
              let bridgePath : Option String :=
                match bridgeInfo with
                | McpBridgeAvailability.found p => some p
                | McpBridgeAvailability.missing => none
              let xcodeRunning : Option Bool :=
                if r.success then some (r.output.trim.length > 0) else none
              XcodeToolsBridgeDoctorInfo.available workflowEnabled bridgePath
                xcodeRunning false none 0 none

/-! ## Bridge connection manager (modelled from the spec) -/

/-- Outcome of one connect attempt against the external IDE tool bridge:
either the bridge was discovered at a path and the connection succeeded
(carrying the discovered path, bridge pid, whether the owning IDE process
is running, and the proxied tool count), or the attempt failed with an
error message (possibly still having discovered the endpoint path and the
IDE process state). -/
inductive ConnectOutcome where
  | success (path : String) (pid : Option Int) (xcodeRunning : Option Bool)
      (toolCount : Nat)
  | failure (message : String) (discoveredPath : Option String)
      (xcodeRunning : Option Bool)
deriving Repr, DecidableEq

/-- Modelled from the spec: the bridge connection manager's implementation
is not among the visible sources.  Section 4.5 of the design says every
state transition updates the `BridgeConnection` status record atomically,
and section 3 says the record "is reconstructed, not mutated
destructively, on every reconnect attempt so stale fields never survive a
failed connect".  `connectAttempt` is that reconstruction: the new status
is built entirely from the attempt's outcome (plus the static
workflow-enabled flag), never by patching the previous record. -/
def connectAttempt (s : BridgeManagerStatus) (o : ConnectOutcome) :
    BridgeManagerStatus :=
  match o with
  | ConnectOutcome.success path pid xcodeRunning toolCount =>
      { workflowEnabled := s.workflowEnabled
        bridgePath := some path
        xcodeRunning := xcodeRunning
        connected := true
        bridgePid := pid
        proxiedToolCount := toolCount
        lastError := none }
  | ConnectOutcome.failure message discoveredPath xcodeRunning =>
      { workflowEnabled := s.workflowEnabled
        bridgePath := discoveredPath
        xcodeRunning := xcodeRunning
        connected := false
        bridgePid := none
        proxiedToolCount := 0
        lastError := some message }

/-- The error carried by a connect attempt's outcome: `none` for a
successful attempt, the failure message otherwise. -/
def attemptError (o : ConnectOutcome) : Option String :=
  match o with
  | ConnectOutcome.success _ _ _ _ => none
  | ConnectOutcome.failure message _ _ => some message

/-- **C3.** For every bridge status snapshot produced by a connect
attempt, `connected = true` implies `bridgePath` is non-null, and
`lastError` is exactly the error of that (most recent) attempt — in
particular a successful connect clears any stale error from an earlier
failed attempt.  In the visible doctor code, the fallback snapshot built
when no bridge manager exists always has `connected = false`,
`bridgePid = null`, `proxiedToolCount = 0` and `lastError = null`. -/
theorem bridge_status_consistency :
    (∀ (s : BridgeManagerStatus) (o : ConnectOutcome),
      ((connectAttempt s o).connected = true →
        ∃ p, (connectAttempt s o).bridgePath = some p) ∧
      (connectAttempt s o).lastError = attemptError o) ∧
    (∀ (bridgeInfo : McpBridgeAvailability) (r : ExecResult)
        (workflowEnabled : Bool),
      ∃ bp xr,
        getXcodeToolsBridgeDoctorInfo none (Except.ok bridgeInfo)
            (Except.ok r) workflowEnabled =
          XcodeToolsBridgeDoctorInfo.available workflowEnabled bp xr
            false none 0 none) := by
  constructor
  · intro s o
    cases o with
    | success path pid xcodeRunning toolCount =>
        exact ⟨fun _ => ⟨path, rfl⟩, rfl⟩
    | failure message discoveredPath xcodeRunning =>
        refine ⟨fun h => ?_, rfl⟩
        simp [connectAttempt] at h
  · intro bridgeInfo r workflowEnabled
    cases bridgeInfo with
    | found p =>
        exact ⟨some p, if r.success then some (r.output.trim.length > 0) else none, rfl⟩
    | missing =>
        exact ⟨none, if r.success then some (r.output.trim.length > 0) else none, rfl⟩

/-- Closed witness for `bridge_status_consistency`: evaluates the theorem
on a concrete successful attempt (after a previous failed one, checking
the stale error is gone) and on a concrete fallback probe. -/
theorem bridge_status_consistency_witness :
    ((∃ p,
        (connectAttempt
            (connectAttempt
              { workflowEnabled := true, bridgePath := none, xcodeRunning := none
                connected := false, bridgePid := none, proxiedToolCount := 0
                lastError := none }
              (ConnectOutcome.failure "bridge unreachable" none (some false)))
            (ConnectOutcome.success "/tmp/bridge.sock" (some 42) (some true) 3)).bridgePath
          = some p) ∧
      (connectAttempt
          (connectAttempt
            { workflowEnabled := true, bridgePath := none, xcodeRunning := none
              connected := false, bridgePid := none, proxiedToolCount := 0
              lastError := none }
            (ConnectOutcome.failure "bridge unreachable" none (some false)))
          (ConnectOutcome.success "/tmp/bridge.sock" (some 42) (some true) 3)).lastError
        = none) ∧
    (∃ bp xr,
      getXcodeToolsBridgeDoctorInfo none
          (Except.ok (McpBridgeAvailability.found "/usr/bin/mcpbridge"))
          (Except.ok { success := true, output := "123\n" }) true =
        XcodeToolsBridgeDoctorInfo.available true bp xr false none 0 none) := by
  have h := bridge_status_consistency
  refine ⟨⟨?_, ?_⟩, ?_⟩
  · exact (h.1 _ (ConnectOutcome.success "/tmp/bridge.sock" (some 42) (some true) 3)).1
      (by decide)
  · exact (h.1 _ (ConnectOutcome.success "/tmp/bridge.sock" (some 42) (some true) 3)).2
  · exact h.2 (McpBridgeAvailability.found "/usr/bin/mcpbridge")
      { success := true, output := "123\n" } true

/-- **C4.** The bridge status surface exposed to the doctor is a
point-in-time snapshot with exactly the fields `available`,
`workflowEnabled`, `bridgePath`, `xcodeRunning`, `connected`,
`bridgePid`, `proxiedToolCount`, `lastError`: every result is either an
available snapshot carrying those seven data fields or an unavailable
record; the live-manager path copies the manager's status fields
verbatim, and the managerless probe path fills them from the probes. -/
theorem bridge_status_surface_shape :
    (∀ (manager : Option (Except String BridgeManagerStatus))
        (bridgeProbe : Except String McpBridgeAvailability)
        (pgrepXcode : Except String ExecResult) (workflowEnabled : Bool),
      (∃ we bp xr c pid cnt le,
        getXcodeToolsBridgeDoctorInfo manager bridgeProbe pgrepXcode workflowEnabled =
          XcodeToolsBridgeDoctorInfo.available we bp xr c pid cnt le) ∨
      (∃ reason,
        getXcodeToolsBridgeDoctorInfo manager bridgeProbe pgrepXcode workflowEnabled =
          XcodeToolsBridgeDoctorInfo.unavailable reason)) ∧
    (∀ (st : BridgeManagerStatus) (bridgeProbe : Except String McpBridgeAvailability)
        (pgrepXcode : Except String ExecResult) (workflowEnabled : Bool),
      getXcodeToolsBridgeDoctorInfo (some (Except.ok st)) bridgeProbe pgrepXcode
          workflowEnabled =
        XcodeToolsBridgeDoctorInfo.available st.workflowEnabled st.bridgePath
          st.xcodeRunning st.connected st.bridgePid st.proxiedToolCount
          st.lastError) ∧
    (∀ (bridgeInfo : McpBridgeAvailability) (r : ExecResult) (workflowEnabled : Bool),
      getXcodeToolsBridgeDoctorInfo none (Except.ok bridgeInfo) (Except.ok r)
          workflowEnabled =
        XcodeToolsBridgeDoctorInfo.available workflowEnabled
          (match bridgeInfo with
            | McpBridgeAvailability.found p => some p
            | McpBridgeAvailability.missing => none)
          (if r.success then some (r.output.trim.length > 0) else none)
          false none 0 none) := by
  refine ⟨?_, fun st bp pg w => rfl, fun bi r w => rfl⟩
  intro manager bridgeProbe pgrepXcode workflowEnabled
  match h : getXcodeToolsBridgeDoctorInfo manager bridgeProbe pgrepXcode workflowEnabled with
  | XcodeToolsBridgeDoctorInfo.available we bp xr c pid cnt le =>
      exact Or.inl ⟨we, bp, xr, c, pid, cnt, le, rfl⟩
  | XcodeToolsBridgeDoctorInfo.unavailable reason =>
      exact Or.inr ⟨reason, rfl⟩

/-- **C5.** Every failure inside the bridge-status probe — a throw from
`manager.getStatus()`, from `getMcpBridgeAvailability()`, or from the
`pgrep` check — is reported as `{available := false, reason}` with the
underlying error's own message as the reason, never swallowed into a
generic error and never propagated as a crash of the doctor tool. -/
theorem bridge_probe_errors_reported :
    (∀ (e : String) (bridgeProbe : Except String McpBridgeAvailability)
        (pgrepXcode : Except String ExecResult) (workflowEnabled : Bool),
      getXcodeToolsBridgeDoctorInfo (some (Except.error e)) bridgeProbe pgrepXcode
          workflowEnabled = XcodeToolsBridgeDoctorInfo.unavailable e) ∧
    (∀ (e : String) (pgrepXcode : Except String ExecResult) (workflowEnabled : Bool),
      getXcodeToolsBridgeDoctorInfo none (Except.error e) pgrepXcode workflowEnabled =
        XcodeToolsBridgeDoctorInfo.unavailable e) ∧
    (∀ (e : String) (bridgeInfo : McpBridgeAvailability) (workflowEnabled : Bool),
      getXcodeToolsBridgeDoctorInfo none (Except.ok bridgeInfo) (Except.error e)
          workflowEnabled = XcodeToolsBridgeDoctorInfo.unavailable e) :=
  ⟨fun _ _ _ _ => rfl, fun _ _ _ => rfl, fun _ _ _ => rfl⟩

/-! ## Docs CLI command checker (scripts/check-docs-cli-commands.js, lines 127-170) -/

/-- The `validTopLevel` set of `findInvalidCommands`
(check-docs-cli-commands.js line 128). -/
def validTopLevel : List String := ["mcp", "tools", "daemon", "init"]

/-- The `validDaemonActions` set of `findInvalidCommands`
(check-docs-cli-commands.js line 129). -/
def validDaemonActions : List String := ["status", "start", "stop", "restart", "list"]

/-- The per-match validity decision inside the `while (match)` loop of
`findInvalidCommands` (check-docs-cli-commands.js lines 145-158): a match
of `xcodebuildmcp <first> [<second>]` is valid when it has no second word
and the first is a valid top-level command or workflow, when the first
word is `daemon` and the second is a valid daemon action, or otherwise
when the two-word pair is a valid workflow/tool pair. -/
def commandIsValid (validPairs validWorkflows : List String)
    (first : String) (second : Option String) : Bool :=
  match second with
  | none => decide (first ∈ validTopLevel) || decide (first ∈ validWorkflows)
  | some s =>
      if first = "daemon" then decide (s ∈ validDaemonActions)
      else decide ((first ++ " " ++ s) ∈ validPairs)

/-- One regex match of the documented-command pattern, with the file and
line it came from (the loop state of check-docs-cli-commands.js lines
135-166). -/
structure CommandMatch where
  relativePath : String
  lineNumber : Nat
  first : String
  second : Option String
deriving Repr, DecidableEq

/-- The `command` string rebuilt from a match
(check-docs-cli-commands.js line 148). -/
def commandText (first : String) (second : Option String) : String :=
  match second with
  | some s => first ++ " " ++ s
  | none => first

/-- Shallow embedding of `findInvalidCommands`
(check-docs-cli-commands.js lines 127-170) over the extracted matches:
every match whose command is not valid contributes a
`path:line: command` finding, in order. -/
def findInvalidCommands (validPairs validWorkflows : List String)
    (ms : List CommandMatch) : List String :=
  (ms.filter
      (fun m => !(commandIsValid validPairs validWorkflows m.first m.second))).map
    (fun m => m.relativePath ++ ":" ++ toString m.lineNumber ++ ": " ++
      commandText m.first m.second)

/-- **C6.** The daemon control surface checked by the docs command
checker is exactly the five lifecycle verbs: a documented
`xcodebuildmcp daemon <action>` command is accepted if and only if
`action` is one of `status`, `start`, `stop`, `restart`, `list`
(whatever the tool-catalog-derived sets are), and every match with any
other daemon action produces an invalid-command finding. -/
theorem daemon_actions_exactly_five :
    validDaemonActions = ["status", "start", "stop", "restart", "list"] ∧
    (∀ (validPairs validWorkflows : List String) (action : String),
      commandIsValid validPairs validWorkflows "daemon" (some action) = true ↔
        action ∈ validDaemonActions) ∧
    (∀ (validPairs validWorkflows : List String) (ms : List CommandMatch)
        (m : CommandMatch) (action : String),
      m ∈ ms → m.first = "daemon" → m.second = some action →
      action ∉ validDaemonActions →
      (m.relativePath ++ ":" ++ toString m.lineNumber ++ ": " ++
          ("daemon" ++ " " ++ action)) ∈
        findInvalidCommands validPairs validWorkflows ms) := by
  refine ⟨rfl, ?_, ?_⟩
  · intro validPairs validWorkflows action
    simp [commandIsValid]
  · intro validPairs validWorkflows ms m action hmem hfirst hsecond hbad
    have hinvalid : commandIsValid validPairs validWorkflows m.first m.second = false := by
      rw [hfirst, hsecond]
      simp [commandIsValid, hbad]
    refine List.mem_map.mpr ⟨m, List.mem_filter.mpr ⟨hmem, ?_⟩, ?_⟩
    · simp [hinvalid]
    · rw [hfirst, hsecond]
      rfl

/-- Closed witness for `daemon_actions_exactly_five`: the unknown daemon
action `kill` documented in some file is flagged as an invalid finding,
while `restart` is accepted. -/
theorem daemon_actions_exactly_five_witness :
    ("docs/CLI.md:10: daemon kill") ∈
      findInvalidCommands [] []
        [{ relativePath := "docs/CLI.md", lineNumber := 10,
           first := "daemon", second := some "kill" }] ∧
    commandIsValid [] [] "daemon" (some "restart") = true := by
  have h := daemon_actions_exactly_five
  constructor
  · exact h.2.2 [] []
      [{ relativePath := "docs/CLI.md", lineNumber := 10,
         first := "daemon", second := some "kill" }]
      { relativePath := "docs/CLI.md", lineNumber := 10,
        first := "daemon", second := some "kill" }
      "kill" (by simp) rfl rfl (by decide)
  · exact (h.2.1 [] [] "restart").mpr (by decide)

/-! ## runDoctor environment frame (src/mcp/tools/doctor/doctor.ts, lines 167-469) -/

/-- The environment variable saved, set and restored by `runDoctor`
(doctor.ts lines 172-173 and 462-467). -/
def silenceLogsKey : String := "XCODEBUILDMCP_SILENCE_LOGS"

/-- `process.env[k] = v`, on the process environment modelled as a map
from variable names to optional values. -/
def setEnv (env : String → Option String) (k v : String) : String → Option String :=
  fun q => if q = k then some v else env q

/-- `delete process.env[k]`. -/
def deleteEnv (env : String → Option String) (k : String) : String → Option String :=
  fun q => if q = k then none else env q

/-- The environment as the body of `runDoctor` observes it: doctor.ts
line 172 saves `prevSilence`, line 173 sets the silence flag to
`'true'`, and the body performs no further environment writes (it only
reads `process.env`). -/
def runDoctorEnvDuring (env : String → Option String) : String → Option String :=
  setEnv env silenceLogsKey "true"

/-- The environment after `runDoctor` returns normally: doctor.ts lines
462-467 delete the silence flag when `prevSilence` was `undefined` and
otherwise write the saved value back. -/
def runDoctorEnvAfter (env : String → Option String) : String → Option String :=
  let prevSilence := env silenceLogsKey
  let envAfterBody := runDoctorEnvDuring env
  match prevSilence with
  | none => deleteEnv envAfterBody silenceLogsKey
  | some v => setEnv envAfterBody silenceLogsKey v

/-- **C8.** When `runDoctor` returns normally, `XCODEBUILDMCP_SILENCE_LOGS`
is restored to its exact pre-call state — same value, or deleted if it was
unset — even though the flag is `'true'` for the duration of the run, and
no other environment variable is touched at any point. -/
theorem run_doctor_env_restored (env : String → Option String) (k : String) :
    runDoctorEnvAfter env k = env k ∧
    runDoctorEnvDuring env silenceLogsKey = some "true" ∧
    (k ≠ silenceLogsKey → runDoctorEnvDuring env k = env k) := by
  refine ⟨?_, by simp [runDoctorEnvDuring, setEnv], fun hk => by
    simp [runDoctorEnvDuring, setEnv, hk]⟩
  by_cases hk : k = silenceLogsKey
  · subst hk
    cases h : env silenceLogsKey <;>
      simp [runDoctorEnvAfter, runDoctorEnvDuring, setEnv, deleteEnv, h]
  · cases h : env silenceLogsKey <;>
      simp [runDoctorEnvAfter, runDoctorEnvDuring, setEnv, deleteEnv, h, hk]

/-- Closed witness for `run_doctor_env_restored`: a concrete environment
where the flag was unset and another variable (`PATH`) is present; the
flag is `'true'` during the run, deleted again afterwards, and `PATH` is
untouched. -/
theorem run_doctor_env_restored_witness :
    (runDoctorEnvAfter (fun q => if q = "PATH" then some "/usr/bin" else none)
        silenceLogsKey =
      (fun q => if q = "PATH" then some "/usr/bin" else none) silenceLogsKey) ∧
    runDoctorEnvDuring (fun q => if q = "PATH" then some "/usr/bin" else none)
        silenceLogsKey = some "true" ∧
    runDoctorEnvDuring (fun q => if q = "PATH" then some "/usr/bin" else none)
        "PATH" = some "/usr/bin" := by
  have h₁ := run_doctor_env_restored
    (fun q => if q = "PATH" then some "/usr/bin" else none) silenceLogsKey
  have h₂ := run_doctor_env_restored
    (fun q => if q = "PATH" then some "/usr/bin" else none) "PATH"
  refine ⟨h₁.1, h₁.2.1, ?_⟩
  have hne : "PATH" ≠ silenceLogsKey := by decide
  rw [h₂.2.2 hne]
  decide

/-! ## init command target resolution (src/cli/commands/init.ts) -/

/-- The two skill variants (init.ts line 8). -/
inductive SkillType where
  | mcp
  | cli
deriving Repr, DecidableEq

/-- `skillDirName` (init.ts lines 26-28). -/
def skillDirName : SkillType → String
  | SkillType.mcp => "xcodebuildmcp"
  | SkillType.cli => "xcodebuildmcp-cli"

/-- `altSkillDirName` (init.ts lines 30-32). -/
def altSkillDirName : SkillType → String
  | SkillType.mcp => "xcodebuildmcp-cli"
  | SkillType.cli => "xcodebuildmcp"

/-- One entry of `CLIENT_DEFINITIONS` (init.ts lines 16-20). -/
structure ClientDef where
  id : String
  name : String
  skillsSubdir : String
deriving Repr, DecidableEq

/-- `CLIENT_DEFINITIONS` (init.ts lines 16-20). -/
def CLIENT_DEFINITIONS : List ClientDef :=
  [{ id := "claude", name := "Claude Code", skillsSubdir := ".claude/skills" },
   { id := "cursor", name := "Cursor", skillsSubdir := ".cursor/skills" },
   { id := "codex", name := "Codex", skillsSubdir := ".codex/skills/public" }]

/-- A resolved install target (`ClientInfo`, init.ts lines 10-14). -/
structure ClientInfo where
  name : String
  id : String
  skillsDir : String
deriving Repr, DecidableEq

/-- `path.join` for the simple two-component joins used by init.ts
(no `.`/`..` segments occur in them). -/
def pathJoin (a b : String) : String := a ++ "/" ++ b

/-- Split a character list on a separator character (the segments of a
path, including empty ones). -/
def splitOnChar (c : Char) : List Char → List (List Char)
  | [] => [[]]
  | x :: xs =>
      let rest := splitOnChar c xs
      if x = c then [] :: rest
      else
        match rest with
        | r :: rs => (x :: r) :: rs
        | [] => [[x]]

/-- One step of POSIX path normalization as performed by `path.resolve`:
empty and `.` segments are dropped, `..` pops the last segment (a no-op
at the root), and any other segment is appended. -/
def resolveStep (acc : List (List Char)) (seg : List Char) : List (List Char) :=
  if seg = [] ∨ seg = ['.'] then acc
  else if seg = ['.', '.'] then acc.dropLast
  else acc ++ [seg]

/-- `path.resolve(dest)` on POSIX against the current working directory
(assumed absolute, as `process.cwd()` always is): absolutize then
normalize, yielding `/` followed by the surviving segments joined by
`/`. -/
def pathResolve (cwd dest : String) : String :=
  let p := if dest.data.head? = some '/' then dest else cwd ++ "/" ++ dest
  let segs := (splitOnChar '/' p.data).foldl resolveStep []
  String.mk ('/' :: (segs.intersperse ['/']).flatten)

/-- `path.parse(p).root` on POSIX: `/` for an absolute path, empty
otherwise. -/
def parseRoot (p : String) : String :=
  if p.data.head? = some '/' then "/" else ""

/-- `detectClients` (init.ts lines 38-54), with `fs.existsSync` passed in
as `pathExists`: a client is detected when its top-level directory (the
first component of its skills subdirectory) exists under the home
directory. -/
def detectClients (home : String) (pathExists : String → Bool) : List ClientInfo :=
  CLIENT_DEFINITIONS.filterMap fun d =>
    if pathExists (pathJoin home ((d.skillsSubdir.splitOn "/").headD "")) then
      some { name := d.name, id := d.id, skillsDir := pathJoin home d.skillsSubdir }
    else none

/-- The no-`--dest` part of `resolveTargets` (init.ts lines 176-192):
an explicit non-`auto` client flag selects that client's definition or
fails on an unknown id; otherwise auto-detection runs and an empty
detection result is an error. -/
def resolveTargetsNoDest (clientFlag : Option String) (home : String)
    (pathExists : String → Bool) : Except String (List ClientInfo) :=
  let autoDetect : Except String (List ClientInfo) :=
    match detectClients home pathExists with
    | [] => Except.error
        ("No supported AI clients detected.\n" ++
          "Use --client to specify a client, --dest to specify a custom path, or --print to output the skill content.")
    | detected => Except.ok detected
  match clientFlag with
  | some c =>
      if c ≠ "" ∧ c ≠ "auto" then
        match CLIENT_DEFINITIONS.find? (fun d => d.id = c) with
        | none => Except.error
            ("Unknown client: " ++ c ++ ". Valid clients: claude, cursor, codex")
        | some d => Except.ok
            [{ name := d.name, id := d.id, skillsDir := pathJoin home d.skillsSubdir }]
      else autoDetect
  | none => autoDetect

/-- `resolveTargets` (init.ts lines 162-193).  A truthy `--dest` flag is
resolved to an absolute path; if that equals its filesystem root the
function throws the refusal error, otherwise the single custom target is
returned.  Without a truthy `--dest` the client-flag/auto-detect logic
runs. -/
def resolveTargets (clientFlag destFlag : Option String) (cwd home : String)
    (pathExists : String → Bool) : Except String (List ClientInfo) :=
  match destFlag with
  | some dest =>
      if dest = "" then resolveTargetsNoDest clientFlag home pathExists
      else
        let resolvedDest := pathResolve cwd dest
        if resolvedDest = parseRoot resolvedDest then
          Except.error
            "Refusing to install skills into filesystem root. Use a dedicated directory."
        else
          Except.ok [{ name := "Custom", id := "custom", skillsDir := resolvedDest }]
  | none => resolveTargetsNoDest clientFlag home pathExists

/-- A filesystem mutation performed by the init command. -/
inductive FsAction where
  | removeDir (path : String)
  | makeDir (path : String)
  | writeSkillFile (path : String) (content : String)
deriving Repr, DecidableEq

/-- `installSkill` (init.ts lines 92-140), returning the filesystem
actions performed in order and an error message when it throws (actions
performed before the throw are still listed).  `pathExists` models
`fs.existsSync`, `isTTY` models `process.stdin.isTTY`, `promptAnswer`
the user's yes/no reply, and `skillContent` the outcome of
`readSkillContent` (which throws when the skill source is missing). -/
def installSkill (pathExists : String → Bool) (isTTY promptAnswer : Bool)
    (skillContent : Except String String) (skillsDir : String)
    (skillType : SkillType) (force removeConflict : Bool) :
    List FsAction × Option String :=
  let targetDir := pathJoin skillsDir (skillDirName skillType)
  let altDir := pathJoin skillsDir (altSkillDirName skillType)
  let targetFile := pathJoin targetDir "SKILL.md"
  let conflictStep : List FsAction × Option String :=
    if pathExists altDir then
      if removeConflict then ([FsAction.removeDir altDir], none)
      else if !isTTY then
        let altType := match skillType with
          | SkillType.mcp => "cli"
          | SkillType.cli => "mcp"
        ([], some ("Conflicting skill \"" ++ altSkillDirName skillType ++
          "\" found in " ++ skillsDir ++ ". " ++
          "Use --remove-conflict to auto-remove it, or uninstall the " ++
          altType ++ " skill first."))
      else if promptAnswer then ([FsAction.removeDir altDir], none)
      else ([], some "Installation cancelled due to conflicting skill.")
    else ([], none)
  match conflictStep with
  | (acts, some e) => (acts, some e)
  | (acts, none) =>
      let overwriteError : Option String :=
        if pathExists targetFile ∧ !force then
          if !isTTY then
            some ("Skill already installed at " ++ targetFile ++ ". Use --force to overwrite.")
          else if promptAnswer then none
          else some "Installation cancelled."
        else none
      match overwriteError with
      | some e => (acts, some e)
      | none =>
          match skillContent with
          | Except.error e => (acts, some e)
          | Except.ok content =>
              (acts ++ [FsAction.makeDir targetDir,
                FsAction.writeSkillFile targetFile content], none)

/-- `uninstallSkill` (init.ts lines 142-160): removes whichever of the
two variant directories exist under the skills directory. -/
def uninstallSkill (pathExists : String → Bool) (skillsDir : String) :
    List FsAction :=
  (["xcodebuildmcp", "xcodebuildmcp-cli"].filter
      (fun variant => pathExists (pathJoin skillsDir variant))).map
    (fun variant => FsAction.removeDir (pathJoin skillsDir variant))

/-- Sequencing of per-target work in the handler's `for` loops: actions
accumulate across targets until the first error aborts the loop. -/
def runTargets (f : ClientInfo → List FsAction × Option String) :
    List ClientInfo → List FsAction × Option String
  | [] => ([], none)
  | t :: ts =>
      match f t with
      | (acts, some e) => (acts, some e)
      | (acts, none) =>
          let rest := runTargets f ts
          (acts ++ rest.1, rest.2)

/-- The `init` command handler (init.ts lines 238-293), as the list of
filesystem actions it performs plus the error it throws, if any:
`--print` writes nothing; otherwise `resolveTargets` runs first and its
error aborts the handler before any install or uninstall work; then the
uninstall or install loop runs over the resolved targets. -/
def initHandler (pathExists : String → Bool) (isTTY promptAnswer : Bool)
    (skillContent : Except String String) (cwd home : String)
    (skillType : SkillType) (clientFlag destFlag : Option String)
    (force removeConflict uninstall printFlag : Bool) :
    List FsAction × Option String :=
  if printFlag then
    match skillContent with
    | Except.error e => ([], some e)
    | Except.ok _ => ([], none)
  else
    match resolveTargets clientFlag destFlag cwd home pathExists with
    | Except.error e => ([], some e)
    | Except.ok targets =>
        if uninstall then
          (targets.flatMap (fun t => uninstallSkill pathExists t.skillsDir), none)
        else
          runTargets
            (fun t => installSkill pathExists isTTY promptAnswer skillContent
              t.skillsDir skillType force removeConflict)
            targets

/-- **C10.** For every `init` invocation with a truthy `--dest` whose
resolved absolute path is the filesystem root, target resolution throws
the refusal error before any install or uninstall action runs: the
handler performs no filesystem action — no skill file written, no
directory removed — and reports exactly that error. -/
theorem init_refuses_filesystem_root
    (pathExists : String → Bool) (isTTY promptAnswer : Bool)
    (skillContent : Except String String) (cwd home : String)
    (skillType : SkillType) (clientFlag : Option String) (dest : String)
    (force removeConflict uninstall : Bool)
    (hdest : dest ≠ "") (hroot : pathResolve cwd dest = "/") :
    initHandler pathExists isTTY promptAnswer skillContent cwd home skillType
        clientFlag (some dest) force removeConflict uninstall false =
      ([], some "Refusing to install skills into filesystem root. Use a dedicated directory.") := by
  have hpr : ("/" : String) = parseRoot "/" := rfl
  have hresolve : resolveTargets clientFlag (some dest) cwd home pathExists =
      Except.error
        "Refusing to install skills into filesystem root. Use a dedicated directory." := by
    simp only [resolveTargets, if_neg hdest, hroot]
    rw [if_pos hpr]
  simp only [initHandler, if_neg (Bool.false_ne_true), hresolve]

/-- Closed witness for `init_refuses_filesystem_root`: `--dest /` from
`/home/user` resolves to the root and is refused with no action, for
both the install and the uninstall flow. -/
theorem init_refuses_filesystem_root_witness :
    initHandler (fun _ => true) true true (Except.ok "# skill") "/home/user"
        "/home/user" SkillType.cli (some "auto") (some "/") false false false false =
      ([], some "Refusing to install skills into filesystem root. Use a dedicated directory.") ∧
    initHandler (fun _ => true) true true (Except.ok "# skill") "/home/user"
        "/home/user" SkillType.cli (some "auto") (some "../..") false false true false =
      ([], some "Refusing to install skills into filesystem root. Use a dedicated directory.") := by
  constructor
  · exact init_refuses_filesystem_root (fun _ => true) true true (Except.ok "# skill")
      "/home/user" "/home/user" SkillType.cli (some "auto") "/" false false false
      (by decide) (by decide)
  · exact init_refuses_filesystem_root (fun _ => true) true true (Except.ok "# skill")
      "/home/user" "/home/user" SkillType.cli (some "auto") "../.." false false true
      (by decide) (by decide)

/-! ## Workspace key resolver (modelled from the spec) -/

/-- The inputs of the workspace key resolution performed in `main`
(cli.ts lines 92-105): the runtime's current working directory and the
optional project config path, both already canonicalized (symlinks
resolved) by the filesystem layer. -/
structure ResolveInput where
  cwd : String
  projectConfigPath : Option String
deriving Repr, DecidableEq

/-- The parent directory of a canonical absolute path: all segments but
the last, rendered back with `/` separators. -/
def dirname (p : String) : String :=
  let segs := ((splitOnChar '/' p.data).filter (fun seg => seg ≠ [])).dropLast
  String.mk ('/' :: (segs.intersperse ['/']).flatten)

/-- Modelled from the spec: `src/daemon/socket-path.ts`
(`resolveWorkspaceRoot`, called at cli.ts line 92) is not among the
visible sources.  Section 4.1 makes `resolve` a pure function of
`(cwd, explicitConfigPath?)`; the project root is the directory holding
the explicit config when one is given, and the canonical cwd
otherwise. -/
def resolveWorkspaceRoot (input : ResolveInput) : String :=
  match input.projectConfigPath with
  | some configPath => dirname configPath
  | none => input.cwd

/-- Modelled from the spec: `getWorkspaceKey` (cli.ts line 102) is not
among the visible sources.  Section 3 requires the WorkspaceKey to be
derived from the canonicalized project root path with identical inputs
giving identical keys and different projects never colliding; that
collision-free derivation is modelled as the injective identity
embedding of the canonical root. -/
def getWorkspaceKey (input : ResolveInput) : String :=
  resolveWorkspaceRoot input

/-- Modelled from the spec: `getSocketPath` (cli.ts line 97) is not among
the visible sources.  Section 6 gives one local IPC endpoint per
workspace, addressed by the resolver's derived path; the endpoint path
embeds the workspace key between a fixed prefix and suffix. -/
def getSocketPath (input : ResolveInput) : String :=
  "/tmp/xcodebuildmcp-" ++ getWorkspaceKey input ++ ".sock"

/-- **C1.** Workspace key resolution is deterministic and
collision-free: identical `(cwd, configPath)` inputs yield the identical
workspace key and identical endpoint path, and two resolutions from
different project roots never yield the same endpoint path. -/
theorem workspace_key_resolution_deterministic_and_collision_free :
    (∀ i₁ i₂ : ResolveInput, i₁ = i₂ →
      getWorkspaceKey i₁ = getWorkspaceKey i₂ ∧
      getSocketPath i₁ = getSocketPath i₂) ∧
    (∀ i₁ i₂ : ResolveInput,
      resolveWorkspaceRoot i₁ ≠ resolveWorkspaceRoot i₂ →
      getSocketPath i₁ ≠ getSocketPath i₂) := by
  constructor
  · intro i₁ i₂ h
    exact ⟨congrArg getWorkspaceKey h, congrArg getSocketPath h⟩
  · intro i₁ i₂ hroot heq
    apply hroot
    have hdata : ("/tmp/xcodebuildmcp-".data ++ (getWorkspaceKey i₁).data) ++ ".sock".data =
        ("/tmp/xcodebuildmcp-".data ++ (getWorkspaceKey i₂).data) ++ ".sock".data := by
      have h1 := congrArg String.data heq
      simpa [getSocketPath, String.data_append, List.append_assoc] using h1
    have hkey : (getWorkspaceKey i₁).data = (getWorkspaceKey i₂).data :=
      List.append_cancel_left (List.append_cancel_right hdata)
    have : getWorkspaceKey i₁ = getWorkspaceKey i₂ := by
      cases h₁ : getWorkspaceKey i₁
      cases h₂ : getWorkspaceKey i₂
      rw [h₁, h₂] at hkey
      exact congrArg String.mk hkey
    simpa [getWorkspaceKey] using this

/-- Closed witness for
`workspace_key_resolution_deterministic_and_collision_free`: the same
input resolved twice gives the same key and endpoint, and two different
project roots give different endpoints. -/
theorem workspace_key_resolution_witness :
    (getWorkspaceKey { cwd := "/home/dev/app", projectConfigPath := none } =
      getWorkspaceKey { cwd := "/home/dev/app", projectConfigPath := none } ∧
     getSocketPath { cwd := "/home/dev/app", projectConfigPath := none } =
      getSocketPath { cwd := "/home/dev/app", projectConfigPath := none }) ∧
    getSocketPath { cwd := "/home/dev/app", projectConfigPath := none } ≠
      getSocketPath { cwd := "/home/dev/app2", projectConfigPath := none } := by
  have h := workspace_key_resolution_deterministic_and_collision_free
  refine ⟨h.1 _ _ rfl, h.2 _ _ ?_⟩
  decide

/-! ## Session registry resource destruction (modelled from the spec) -/

/-- The kinds of ManagedResource (spec section 3). -/
inductive ResourceKind where
  | logCapture
  | debug
deriving Repr, DecidableEq

/-- Modelled from the spec: the session registry implementation is not
among the visible sources.  A ManagedResource has a unique id, an owning
client connection, a creation time and a liveness state (spec section
3). -/
structure ManagedResource where
  id : Nat
  kind : ResourceKind
  owningClient : Nat
  createdAt : Nat
  live : Bool
deriving Repr, DecidableEq

/-- The in-memory per-workspace registry of live managed resources
(spec section 4.4). -/
structure SessionRegistry where
  resources : List ManagedResource
deriving Repr, DecidableEq

/-- The typed result of a resource stop request (spec sections 4.4 and
7: a stop of an already-terminated or nonexistent resource is reported
as a typed not-active result, never a generic failure). -/
inductive StopResult where
  | stopped
  | notActive
deriving Repr, DecidableEq

/-- Modelled from the spec: resource destruction in the session registry
(spec section 4.4: "Resource destruction is safe to call twice (second
call is a no-op reporting already-stopped)").  Stopping a live resource
marks it stopped and reports `stopped`; stopping a missing or
already-stopped resource leaves the registry untouched and reports the
typed `notActive` result instead of raising an error. -/
def stopResource (reg : SessionRegistry) (rid : Nat) :
    SessionRegistry × StopResult :=
  match reg.resources.find? (fun r => r.id == rid) with
  | some r =>
      if r.live then
        ({ resources := reg.resources.map
            (fun q => if q.id == rid then { q with live := false } else q) },
          StopResult.stopped)
      else (reg, StopResult.notActive)
  | none => (reg, StopResult.notActive)

/-- `find?` over a list mapped by an id-preserving function finds the
image of what `find?` finds in the original list. -/
theorem find?_map_id_preserving (rid : Nat) (f : ManagedResource → ManagedResource)
    (hf : ∀ r, (f r).id = r.id) (l : List ManagedResource) :
    (l.map f).find? (fun r => r.id == rid) =
      (l.find? (fun r => r.id == rid)).map f := by
  induction l with
  | nil => rfl
  | cons x xs ih =>
      by_cases hx : x.id == rid
      · simp [List.find?, hf, hx]
      · simp only [List.map_cons, List.find?]
        rw [show ((f x).id == rid) = (x.id == rid) by rw [hf]]
        simp only [hx]
        exact ih

/-- **C7.** Resource destruction is idempotent: after any stop of a
resource id, a second stop of the same id is a no-op that returns the
typed `notActive` result — the registry is unchanged and no error is
raised that could crash the request router. -/
theorem stop_resource_idempotent (reg : SessionRegistry) (rid : Nat) :
    stopResource (stopResource reg rid).1 rid =
      ((stopResource reg rid).1, StopResult.notActive) := by
  rcases hfind : reg.resources.find? (fun r => r.id == rid) with - | r
  · simp [stopResource, hfind]
  · by_cases hlive : r.live
    · have hmap := find?_map_id_preserving rid
        (fun q => if q.id == rid then { q with live := false } else q)
        (fun q => by by_cases h : q.id == rid <;> simp [h]) reg.resources
      have hid := List.find?_some hfind
      simp only [stopResource, hfind, if_pos hlive]
      rw [hmap, hfind]
      simp [beq_iff_eq.mp hid]
    · simp [stopResource, hfind, hlive]

/-- Closed witness for `stop_resource_idempotent`: stopping log-capture
resource 7 twice in a concrete registry: the first call stops it, the
second reports `notActive` and changes nothing. -/
theorem stop_resource_idempotent_witness :
    stopResource
        (stopResource
          (⟨[⟨7, ResourceKind.logCapture, 1, 100, true⟩]⟩ : SessionRegistry) 7).1 7 =
      ((stopResource
          (⟨[⟨7, ResourceKind.logCapture, 1, 100, true⟩]⟩ : SessionRegistry) 7).1,
        StopResult.notActive) ∧
    (stopResource
        (⟨[⟨7, ResourceKind.logCapture, 1, 100, true⟩]⟩ : SessionRegistry) 7).2 =
      StopResult.stopped := by
  exact ⟨stop_resource_idempotent _ 7, by decide⟩

/-! ## Daemon lifecycle (modelled from the spec) -/

/-- Modelled from the spec: the daemon lifecycle controller is not among
the visible sources.  Lifecycle states of section 4.2 (`NOT_RUNNING` is
the absence of a process; a spawned process starts in `STARTING`). -/
inductive DaemonPhase where
  | starting
  | ready
  | draining
  | stopped
deriving Repr, DecidableEq

/-- One spawned daemon process: its WorkspaceKey, its lifecycle phase,
and whether it currently holds (has exclusively bound) the workspace
endpoint. -/
structure DaemonProc where
  key : String
  phase : DaemonPhase
  bound : Bool
deriving Repr, DecidableEq

/-- One client running the start protocol of spec 4.2: it targets a
WorkspaceKey and ends up holding a reference to the daemon it uses. -/
structure ClientProc where
  key : String
  ref : Option Nat
deriving Repr, DecidableEq

/-- The interleaved system: all spawned daemon processes (indexed below
`numDaemons`) and all clients (indexed below `numClients`). -/
structure DaemonSystem where
  numDaemons : Nat
  daemon : Nat → DaemonProc
  numClients : Nat
  client : Nat → ClientProc

/-- Replace daemon `i`. -/
def setDaemon (s : DaemonSystem) (i : Nat) (d : DaemonProc) : DaemonSystem :=
  { s with daemon := fun j => if j = i then d else s.daemon j }

/-- Replace client `c`. -/
def setClient (s : DaemonSystem) (c : Nat) (cl : ClientProc) : DaemonSystem :=
  { s with client := fun j => if j = c then cl else s.client j }

/-- A client spawns a detached daemon process for key `k`; it begins in
`STARTING` without the endpoint. -/
def spawnState (s : DaemonSystem) (k : String) : DaemonSystem :=
  { numDaemons := s.numDaemons + 1
    daemon := fun j => if j = s.numDaemons then
        { key := k, phase := DaemonPhase.starting, bound := false }
      else s.daemon j
    numClients := s.numClients
    client := s.client }

/-- Daemon `i` wins the endpoint-bind race and becomes `READY`. -/
def bindWinState (s : DaemonSystem) (i : Nat) : DaemonSystem :=
  setDaemon s i
    { key := (s.daemon i).key, phase := DaemonPhase.ready, bound := true }

/-- Daemon `i` loses the endpoint-bind race and exits. -/
def bindLoseState (s : DaemonSystem) (i : Nat) : DaemonSystem :=
  setDaemon s i
    { key := (s.daemon i).key, phase := DaemonPhase.stopped, bound := false }

/-- Client `c` settles on daemon `i` as the daemon to use. -/
def attachState (s : DaemonSystem) (c : Nat) (i : Nat) : DaemonSystem :=
  setClient s c { key := (s.client c).key, ref := some i }

/-- Daemon `i` begins draining (stop request, idle timer or signal);
the endpoint is removed only on `STOPPED`. -/
def drainState (s : DaemonSystem) (i : Nat) : DaemonSystem :=
  setDaemon s i
    { key := (s.daemon i).key, phase := DaemonPhase.draining, bound := true }

/-- Daemon `i` finishes draining, removes the endpoint and stops. -/
def stopDoneState (s : DaemonSystem) (i : Nat) : DaemonSystem :=
  setDaemon s i
    { key := (s.daemon i).key, phase := DaemonPhase.stopped, bound := false }

/-- Modelled from the spec: the interleaving semantics of the daemon
lifecycle (spec 4.2, 5 and design note on the bind race).  Exclusivity
comes only from the endpoint bind: `bindWin` requires that no process
currently holds the endpoint of that key, and a process that loses the
race (`bindLose`) exits and its client falls back to the winner.
Clients attach only to a `READY` daemon of their key.  With
`allowShutdown := false` the relation describes the fresh-start
scenario in which no stop request, idle timeout or signal occurs. -/
inductive DaemonStep (allowShutdown : Bool) : DaemonSystem → DaemonSystem → Prop where
  | spawn (s : DaemonSystem) (k : String) :
      DaemonStep allowShutdown s (spawnState s k)
  | bindWin (s : DaemonSystem) (i : Nat) (hi : i < s.numDaemons)
      (hstart : (s.daemon i).phase = DaemonPhase.starting)
      (hfree : ∀ j, j < s.numDaemons → (s.daemon j).key = (s.daemon i).key →
        (s.daemon j).bound = false) :
      DaemonStep allowShutdown s (bindWinState s i)
  | bindLose (s : DaemonSystem) (i j : Nat) (hi : i < s.numDaemons)
      (hstart : (s.daemon i).phase = DaemonPhase.starting)
      (hj : j < s.numDaemons) (hbound : (s.daemon j).bound = true)
      (hkey : (s.daemon j).key = (s.daemon i).key) :
      DaemonStep allowShutdown s (bindLoseState s i)
  | attach (s : DaemonSystem) (c i : Nat) (hc : c < s.numClients)
      (hnone : (s.client c).ref = none) (hi : i < s.numDaemons)
      (hkey : (s.daemon i).key = (s.client c).key)
      (hready : (s.daemon i).phase = DaemonPhase.ready) :
      DaemonStep allowShutdown s (attachState s c i)
  | drain (s : DaemonSystem) (i : Nat) (ha : allowShutdown = true)
      (hi : i < s.numDaemons) (hready : (s.daemon i).phase = DaemonPhase.ready) :
      DaemonStep allowShutdown s (drainState s i)
  | stopDone (s : DaemonSystem) (i : Nat) (ha : allowShutdown = true)
      (hi : i < s.numDaemons)
      (hdraining : (s.daemon i).phase = DaemonPhase.draining) :
      DaemonStep allowShutdown s (stopDoneState s i)

/-- States reachable from `init` by interleaved steps. -/
inductive DaemonReachable (allowShutdown : Bool) (init : DaemonSystem) :
    DaemonSystem → Prop where
  | refl : DaemonReachable allowShutdown init init
  | step {s t : DaemonSystem} : DaemonReachable allowShutdown init s →
      DaemonStep allowShutdown s t → DaemonReachable allowShutdown init t

/-- A fresh workspace: no daemon process spawned yet, `n` clients all
targeting WorkspaceKey `k`, none attached. -/
def initSystem (k : String) (n : Nat) : DaemonSystem :=
  { numDaemons := 0
    daemon := fun _ => { key := k, phase := DaemonPhase.stopped, bound := false }
    numClients := n
    client := fun _ => { key := k, ref := none } }

/-- The endpoint-exclusivity invariant: a `READY` or `DRAINING` daemon
holds the endpoint, and at most one process per WorkspaceKey holds the
endpoint at any time. -/
def DaemonInv (s : DaemonSystem) : Prop :=
  (∀ i, i < s.numDaemons →
    ((s.daemon i).phase = DaemonPhase.ready ∨
      (s.daemon i).phase = DaemonPhase.draining) → (s.daemon i).bound = true) ∧
  (∀ i j, i < s.numDaemons → j < s.numDaemons → (s.daemon i).bound = true →
    (s.daemon j).bound = true → (s.daemon i).key = (s.daemon j).key → i = j)

/-- `DaemonInv` is preserved by every lifecycle step. -/
theorem daemonStep_preserves_inv {a : Bool} {s t : DaemonSystem}
    (hinv : DaemonInv s) (hstep : DaemonStep a s t) : DaemonInv t := by
  obtain ⟨h1, h2⟩ := hinv
  cases hstep with
  | spawn k =>
      constructor
      · intro i hi hphase
        by_cases hik : i = s.numDaemons
        · subst hik
          simp [spawnState] at hphase
        · have hi' : i < s.numDaemons := by
            simp only [spawnState] at hi
            omega
          simp only [spawnState, if_neg hik] at hphase ⊢
          exact h1 i hi' hphase
      · intro i j hi hj hbi hbj hkey
        by_cases hik : i = s.numDaemons
        · subst hik
          simp [spawnState] at hbi
        · by_cases hjk : j = s.numDaemons
          · subst hjk
            simp [spawnState] at hbj
          · have hi' : i < s.numDaemons := by
              simp only [spawnState] at hi
              omega
            have hj' : j < s.numDaemons := by
              simp only [spawnState] at hj
              omega
            simp only [spawnState, if_neg hik, if_neg hjk] at hbi hbj hkey
            exact h2 i j hi' hj' hbi hbj hkey
  | bindWin w hw hstart hfree =>
      constructor
      · intro i hi hphase
        simp only [bindWinState, setDaemon] at hi ⊢
        by_cases hiw : i = w
        · simp [hiw]
        · simp only [bindWinState, setDaemon, if_neg hiw] at hphase
          simp only [if_neg hiw]
          exact h1 i hi hphase
      · intro i j hi hj hbi hbj hkey
        simp only [bindWinState, setDaemon] at hi hj hbi hbj hkey
        by_cases hiw : i = w
        · by_cases hjw : j = w
          · rw [hiw, hjw]
          · exfalso
            simp only [if_pos hiw, if_neg hjw] at hbj hkey
            exact absurd hbj (by simp [hfree j hj hkey.symm])
        · by_cases hjw : j = w
          · exfalso
            simp only [if_neg hiw, if_pos hjw] at hbi hkey
            exact absurd hbi (by simp [hfree i hi hkey])
          · simp only [if_neg hiw, if_neg hjw] at hbi hbj hkey
            exact h2 i j hi hj hbi hbj hkey
  | bindLose w l hw hstart hl hbound hkeyl =>
      constructor
      · intro i hi hphase
        simp only [bindLoseState, setDaemon] at hi hphase ⊢
        by_cases hiw : i = w
        · simp only [if_pos hiw] at hphase
          simp at hphase
        · simp only [if_neg hiw] at hphase ⊢
          exact h1 i hi hphase
      · intro i j hi hj hbi hbj hkey
        simp only [bindLoseState, setDaemon] at hi hj hbi hbj hkey
        by_cases hiw : i = w
        · simp only [if_pos hiw] at hbi
          simp at hbi
        · by_cases hjw : j = w
          · simp only [if_pos hjw] at hbj
            simp at hbj
          · simp only [if_neg hiw, if_neg hjw] at hbi hbj hkey
            exact h2 i j hi hj hbi hbj hkey
  | attach c w hc hnone hw hkeyw hready =>
      exact ⟨fun i hi hph => h1 i hi hph, fun i j hi hj hbi hbj hk => h2 i j hi hj hbi hbj hk⟩
  | drain w ha hw hready =>
      have hwbound : (s.daemon w).bound = true := h1 w hw (Or.inl hready)
      constructor
      · intro i hi hphase
        simp only [drainState, setDaemon] at hi ⊢
        by_cases hiw : i = w
        · simp [hiw]
        · simp only [drainState, setDaemon, if_neg hiw] at hphase
          simp only [if_neg hiw]
          exact h1 i hi hphase
      · intro i j hi hj hbi hbj hkey
        simp only [drainState, setDaemon] at hi hj hbi hbj hkey
        by_cases hiw : i = w
        · by_cases hjw : j = w
          · rw [hiw, hjw]
          · simp only [if_pos hiw, if_neg hjw] at hbj hkey
            rw [hiw]
            exact (h2 j w hj hw hbj hwbound hkey.symm).symm
        · by_cases hjw : j = w
          · simp only [if_neg hiw, if_pos hjw] at hbi hkey
            rw [hjw]
            exact h2 i w hi hw hbi hwbound hkey
          · simp only [if_neg hiw, if_neg hjw] at hbi hbj hkey
            exact h2 i j hi hj hbi hbj hkey
  | stopDone w ha hw hdraining =>
      constructor
      · intro i hi hphase
        simp only [stopDoneState, setDaemon] at hi hphase ⊢
        by_cases hiw : i = w
        · simp only [if_pos hiw] at hphase
          simp at hphase
        · simp only [if_neg hiw] at hphase ⊢
          exact h1 i hi hphase
      · intro i j hi hj hbi hbj hkey
        simp only [stopDoneState, setDaemon] at hi hj hbi hbj hkey
        by_cases hiw : i = w
        · simp only [if_pos hiw] at hbi
          simp at hbi
        · by_cases hjw : j = w
          · simp only [if_pos hjw] at hbj
            simp at hbj
          · simp only [if_neg hiw, if_neg hjw] at hbi hbj hkey
            exact h2 i j hi hj hbi hbj hkey

/-- `DaemonInv` holds in every state reachable from a fresh workspace. -/
theorem daemonInv_of_reachable {a : Bool} {k : String} {n : Nat} {s : DaemonSystem}
    (h : DaemonReachable a (initSystem k n) s) : DaemonInv s := by
  induction h with
  | refl =>
      exact ⟨fun i hi => absurd hi (Nat.not_lt_zero i), fun i j hi => absurd hi (Nat.not_lt_zero i)⟩
  | step hr hstep ih => exact daemonStep_preserves_inv ih hstep

/-- The fresh-start invariant for workspace key `k`: every client
targets `k`, and every attached client references an in-range daemon
that is `READY` for `k`. -/
def StartInv (k : String) (s : DaemonSystem) : Prop :=
  (∀ c, c < s.numClients → (s.client c).key = k) ∧
  (∀ c i, c < s.numClients → (s.client c).ref = some i →
    i < s.numDaemons ∧ (s.daemon i).phase = DaemonPhase.ready ∧
      (s.daemon i).key = k)

/-- `StartInv` is preserved by every step of the fresh-start scenario
(no shutdown steps). -/
theorem startStep_preserves_inv {k : String} {s t : DaemonSystem}
    (hinv : StartInv k s) (hstep : DaemonStep false s t) : StartInv k t := by
  obtain ⟨hck, href⟩ := hinv
  cases hstep with
  | spawn kk =>
      refine ⟨fun c hc => ?_, fun c i hc hr => ?_⟩
      · exact hck c hc
      · obtain ⟨hlt, hph, hkey⟩ := href c i hc hr
        have hne : i ≠ s.numDaemons := Nat.ne_of_lt hlt
        exact ⟨Nat.lt_succ_of_lt hlt, by simp [spawnState, hne, hph],
          by simp [spawnState, hne, hkey]⟩
  | bindWin w hw hstart hfree =>
      refine ⟨fun c hc => hck c hc, fun c i hc hr => ?_⟩
      obtain ⟨hlt, hph, hkey⟩ := href c i hc hr
      have hne : i ≠ w := by
        intro h
        rw [h] at hph
        rw [hstart] at hph
        exact absurd hph (by simp)
      exact ⟨hlt, by simp [bindWinState, setDaemon, hne, hph],
        by simp [bindWinState, setDaemon, hne, hkey]⟩
  | bindLose w l hw hstart hl hbound hkeyl =>
      refine ⟨fun c hc => hck c hc, fun c i hc hr => ?_⟩
      obtain ⟨hlt, hph, hkey⟩ := href c i hc hr
      have hne : i ≠ w := by
        intro h
        rw [h] at hph
        rw [hstart] at hph
        exact absurd hph (by simp)
      exact ⟨hlt, by simp [bindLoseState, setDaemon, hne, hph],
        by simp [bindLoseState, setDaemon, hne, hkey]⟩
  | attach c' w hc' hnone hw hkeyw hready =>
      constructor
      · intro c hc
        by_cases hcc : c = c'
        · simp [attachState, setClient, hcc]
          exact hck c' hc'
        · simp only [attachState, setClient, if_neg hcc]
          exact hck c hc
      · intro c i hc hr
        by_cases hcc : c = c'
        · simp only [attachState, setClient, hcc, if_pos rfl] at hr
          have hiw : i = w := by
            simp at hr
            omega
          subst hiw
          refine ⟨hw, hready, ?_⟩
          show (s.daemon _).key = k
          rw [hkeyw]
          exact hck c' hc'
        · simp only [attachState, setClient, if_neg hcc] at hr
          exact href c i hc hr
  | drain w ha hw hready => exact absurd ha (by simp)
  | stopDone w ha hw hdraining => exact absurd ha (by simp)

/-- `StartInv` holds in every state of the fresh-start scenario. -/
theorem startInv_of_reachable {k : String} {n : Nat} {s : DaemonSystem}
    (h : DaemonReachable false (initSystem k n) s) : StartInv k s := by
  induction h with
  | refl => exact ⟨fun c hc => rfl, fun c i hc hr => by simp [initSystem] at hr⟩
  | step hr hstep ih => exact startStep_preserves_inv ih hstep

/-- **C2.** At most one daemon process is ever `READY` for a given
WorkspaceKey in any reachable state — exclusivity comes from the
endpoint bind alone, with no external lock in the model — and in the
fresh-start scenario every client that finished the start protocol
references a `READY` daemon of the workspace key, all clients reference
the same one: N concurrently started clients end up with exactly one
daemon instance reachable by all of them. -/
theorem at_most_one_ready_daemon :
    (∀ (a : Bool) (k : String) (n : Nat) (s : DaemonSystem),
      DaemonReachable a (initSystem k n) s →
      ∀ i j, i < s.numDaemons → j < s.numDaemons →
        (s.daemon i).phase = DaemonPhase.ready →
        (s.daemon j).phase = DaemonPhase.ready →
        (s.daemon i).key = (s.daemon j).key → i = j) ∧
    (∀ (k : String) (n : Nat) (s : DaemonSystem),
      DaemonReachable false (initSystem k n) s →
      (∀ c i, c < s.numClients → (s.client c).ref = some i →
        i < s.numDaemons ∧ (s.daemon i).phase = DaemonPhase.ready ∧
          (s.daemon i).key = k) ∧
      (∀ c₁ c₂ i₁ i₂, c₁ < s.numClients → c₂ < s.numClients →
        (s.client c₁).ref = some i₁ → (s.client c₂).ref = some i₂ →
        i₁ = i₂)) := by
  have huniq : ∀ (a : Bool) (k : String) (n : Nat) (s : DaemonSystem),
      DaemonReachable a (initSystem k n) s →
      ∀ i j, i < s.numDaemons → j < s.numDaemons →
        (s.daemon i).phase = DaemonPhase.ready →
        (s.daemon j).phase = DaemonPhase.ready →
        (s.daemon i).key = (s.daemon j).key → i = j := by
    intro a k n s hreach i j hi hj hpi hpj hkey
    obtain ⟨h1, h2⟩ := daemonInv_of_reachable hreach
    exact h2 i j hi hj (h1 i hi (Or.inl hpi)) (h1 j hj (Or.inl hpj)) hkey
  refine ⟨huniq, fun k n s hreach => ?_⟩
  obtain ⟨hck, href⟩ := startInv_of_reachable hreach
  refine ⟨href, fun c₁ c₂ i₁ i₂ hc₁ hc₂ hr₁ hr₂ => ?_⟩
  obtain ⟨hlt₁, hph₁, hkey₁⟩ := href c₁ i₁ hc₁ hr₁
  obtain ⟨hlt₂, hph₂, hkey₂⟩ := href c₂ i₂ hc₂ hr₂
  exact huniq false k n s hreach i₁ i₂ hlt₁ hlt₂ hph₁ hph₂ (by rw [hkey₁, hkey₂])

/-- The concrete two-client fresh-start run used as a witness: both
clients spawn a daemon for workspace `w`, daemon `0` wins the endpoint
bind, daemon `1` loses and exits, and both clients attach to daemon
`0`. -/
def demoStartState : DaemonSystem :=
  attachState
    (attachState
      (bindLoseState
        (bindWinState (spawnState (spawnState (initSystem "w" 2) "w") "w") 0)
        1)
      0 0)
    1 0

/-- Closed witness for `at_most_one_ready_daemon`: in the concrete
two-client run, both clients reference daemon `0`, which is `READY` for
workspace `w`, and the uniqueness part applied to the two references
agrees. -/
theorem at_most_one_ready_daemon_witness :
    (demoStartState.client 0).ref = some 0 ∧
    (demoStartState.client 1).ref = some 0 ∧
    (0 < demoStartState.numDaemons ∧
      (demoStartState.daemon 0).phase = DaemonPhase.ready ∧
      (demoStartState.daemon 0).key = "w") := by
  have hreach : DaemonReachable false (initSystem "w" 2) demoStartState := by
    refine DaemonReachable.step
      (DaemonReachable.step
        (DaemonReachable.step
          (DaemonReachable.step
            (DaemonReachable.step
              (DaemonReachable.step DaemonReachable.refl
                (DaemonStep.spawn _ "w"))
              (DaemonStep.spawn _ "w"))
            (DaemonStep.bindWin _ 0 (by decide) (by decide) (by decide)))
          (DaemonStep.bindLose _ 1 0 (by decide) (by decide) (by decide)
            (by decide) (by decide)))
        (DaemonStep.attach _ 0 0 (by decide) (by decide) (by decide)
          (by decide) (by decide)))
      (DaemonStep.attach _ 1 0 (by decide) (by decide) (by decide)
        (by decide) (by decide))
  have h := at_most_one_ready_daemon.2 "w" 2 demoStartState hreach
  refine ⟨by decide, by decide, ?_⟩
  exact h.1 0 0 (by decide) (by decide)

/-! ## Doctor output redaction (src/mcp/tools/doctor/doctor.ts, lines 20-98)

The JS regexes are embedded as explicit scanners over character lists.
`escapeRegExp` (doctor.ts lines 39-41) makes the interpolated project
names and PII terms match literally; the scanners below match those
strings literally, so the escaping needs no separate model. -/

/-- JS `\w`: ASCII letters, digits and underscore. -/
def isWordChar (c : Char) : Bool :=
  ('a' ≤ c && c ≤ 'z') || ('A' ≤ c && c ≤ 'Z') || ('0' ≤ c && c ≤ '9') || c = '_'

/-- JS `\s` on the ASCII range: space, tab, newline, carriage return,
vertical tab and form feed. -/
def isSpaceChar (c : Char) : Bool :=
  c = ' ' || c = '\t' || c = '\n' || c = '\r' || c = '\x0b' || c = '\x0c'

/-- ASCII lower-casing, for the case-insensitive (`i`) regex flags. -/
def lowerChar (c : Char) : Char :=
  if 'A' ≤ c && c ≤ 'Z' then Char.ofNat (c.toNat + 32) else c

/-- Lower-case a character list. -/
def lowerChars (l : List Char) : List Char := l.map lowerChar

/-- Global replace of `USER_HOME_PATH_PATTERN` = `/\/Users\/[^/\s]+/g`
with `/Users/<redacted>` (doctor.ts lines 22 and 44), scanning left to
right with the greedy run after `/Users/`.  The fuel argument is the
input length; every step consumes at least one character. -/
def homeScan : Nat → List Char → List Char
  | 0, l => l
  | _ + 1, [] => []
  | fuel + 1, c :: rest =>
      let l := c :: rest
      if "/Users/".data.isPrefixOf l then
        let run := (l.drop 7).takeWhile (fun ch => !(ch = '/' || isSpaceChar ch))
        if run.isEmpty then c :: homeScan fuel rest
        else "/Users/<redacted>".data ++ homeScan fuel (l.drop (7 + run.length))
      else c :: homeScan fuel rest

/-- Global replace of `` new RegExp(`/${escaped}(?=/|$)`, 'g') `` with
`/<redacted>` (doctor.ts line 47): `/name` when followed by `/` or the
end of the string; the lookahead is not consumed. -/
def projSlashScan (name : List Char) : Nat → List Char → List Char
  | 0, l => l
  | _ + 1, [] => []
  | fuel + 1, c :: rest =>
      let l := c :: rest
      let after := l.drop (name.length + 1)
      if ('/' :: name).isPrefixOf l &&
          (after.isEmpty || after.head? = some '/') then
        "/<redacted>".data ++ projSlashScan name fuel after
      else c :: projSlashScan name fuel rest

/-- The extension alternatives of the second project-name pattern
(doctor.ts line 50). -/
def projExtNames : List (List Char) :=
  ["xcodeproj".data, "xcworkspace".data, "xcuserstate".data, "swiftpm".data,
   "xcconfig".data]

/-- The lookahead `(?=[.](ext…)(?=$|[^A-Za-z0-9_]))` of the second
project-name pattern (doctor.ts lines 49-52). -/
def projExtLookahead (after : List Char) : Bool :=
  match after with
  | '.' :: tl =>
      projExtNames.any fun ext =>
        ext.isPrefixOf tl &&
          (match (tl.drop ext.length).head? with
            | none => true
            | some ch => !isWordChar ch)
  | _ => false

/-- Global replace of the second project-name pattern with `<redacted>`
(doctor.ts lines 48-54): a bare project name followed (lookahead, not
consumed) by `.xcodeproj`/`.xcworkspace`/`.xcuserstate`/`.swiftpm`/
`.xcconfig` and then the end or a non-word character. -/
def projExtScan (name : List Char) : Nat → List Char → List Char
  | 0, l => l
  | _ + 1, [] => []
  | fuel + 1, c :: rest =>
      let l := c :: rest
      if !name.isEmpty && name.isPrefixOf l && projExtLookahead (l.drop name.length) then
        "<redacted>".data ++ projExtScan name fuel (l.drop name.length)
      else c :: projExtScan name fuel rest

/-- The left `\b` of the PII pattern: boundary between the previous
character of the original string (none at the start) and the first
character of the term. -/
def leftBoundaryOk (prev : Option Char) (t0 : Char) : Bool :=
  match prev with
  | none => isWordChar t0
  | some p => isWordChar p != isWordChar t0

/-- The right `\b` of the PII pattern: boundary between the last
character of the term and the character following the match. -/
def rightBoundaryOk (lastc : Char) (next : Option Char) : Bool :=
  match next with
  | none => isWordChar lastc
  | some n2 => isWordChar lastc != isWordChar n2

/-- Whether the PII pattern `` new RegExp(`\b${escaped}\b`, 'g') ``
matches at the current position, given the previous character of the
original string. -/
def piiMatchAt (term : List Char) (prev : Option Char) (l : List Char) : Bool :=
  match term with
  | [] => false
  | t0 :: _ =>
      term.isPrefixOf l && leftBoundaryOk prev t0 &&
        rightBoundaryOk (term.getLast?.getD t0) (l.drop term.length).head?

/-- Global replace of the PII pattern with `<redacted>` (doctor.ts lines
56-59): a word-bounded literal term.  Matching runs over the original
string, so the previous-character state is taken from the input, not
from the replacement. -/
def piiScan (term : List Char) (prev : Option Char) : Nat → List Char → List Char
  | 0, l => l
  | _ + 1, [] => []
  | fuel + 1, c :: rest =>
      let l := c :: rest
      if piiMatchAt term prev l then
        "<redacted>".data ++ piiScan term term.getLast? fuel (l.drop term.length)
      else c :: piiScan term (some c) fuel rest

/-- The keyword alternatives of `SECRET_VALUE_PATTERN` (doctor.ts lines
25-26), lower-cased, with `[_-]?` expanded in the regex engine's greedy
order. -/
def secretKeywords : List (List Char) :=
  ["token".data, "secret".data, "password".data, "passphrase".data,
   "api_key".data, "api-key".data, "apikey".data, "auth".data, "cookie".data,
   "session".data, "private_key".data, "private-key".data,
   "privatekey".data]

/-- Case-insensitive literal prefix match. -/
def prefixInsensitive (kw l : List Char) : Bool :=
  kw.isPrefixOf (lowerChars (l.take kw.length))

/-- Whether `SECRET_VALUE_PATTERN` =
`/((kw…)\s*[=:]\s*)([^\s,;]+)/gi` matches at the current position;
returns the lengths of capture group 1 (keyword, spacing and the `=` or
`:`) and of the value run.  Alternatives are tried in order, as the
regex engine does. -/
def secretMatchAt (l : List Char) : Option (Nat × Nat) :=
  secretKeywords.findSome? fun kw =>
    if prefixInsensitive kw l then
      let after := l.drop kw.length
      let sp1 := after.takeWhile isSpaceChar
      let after1 := after.drop sp1.length
      match after1.head? with
      | some ch =>
          if ch = '=' || ch = ':' then
            let after2 := after1.drop 1
            let sp2 := after2.takeWhile isSpaceChar
            let after3 := after2.drop sp2.length
            let val := after3.takeWhile
              (fun v => !(isSpaceChar v || v = ',' || v = ';'))
            if val.isEmpty then none
            else some (kw.length + sp1.length + 1 + sp2.length, val.length)
          else none
      | none => none
    else none

/-- Global replace of `SECRET_VALUE_PATTERN` with `$1<redacted>`
(doctor.ts line 61): the keyword, spacing and separator are kept as
captured, the value run is replaced. -/
def secretScan : Nat → List Char → List Char
  | 0, l => l
  | _ + 1, [] => []
  | fuel + 1, c :: rest =>
      let l := c :: rest
      match secretMatchAt l with
      | some (grp1, valLen) =>
          l.take grp1 ++ "<redacted>".data ++ secretScan fuel (l.drop (grp1 + valLen))
      | none => c :: secretScan fuel rest

/-- `redactPathLikeValue` (doctor.ts lines 43-63): the home-path
replacement, then per project name the two project-name replacements,
then per PII term the word-bounded replacement, then the secret-value
replacement. -/
def redactPathLikeValue (value : String) (projectNames piiTerms : List String) :
    String :=
  let chars0 := homeScan value.data.length value.data
  let chars1 := projectNames.foldl
    (fun acc name =>
      let acc1 := projSlashScan name.data acc.length acc
      projExtScan name.data acc1.length acc1)
    chars0
  let chars2 := piiTerms.foldl
    (fun acc term => piiScan term.data none acc.length acc) chars1
  String.mk (secretScan chars2.length chars2)

/-- Whether `needle` occurs as a contiguous subsequence of `hay`. -/
def containsSeq (needle hay : List Char) : Bool :=
  match hay with
  | [] => needle.isEmpty
  | _ :: t => needle.isPrefixOf hay || containsSeq needle t

/-- Whether `needle` is a suffix of `hay`. -/
def endsWithSeq (needle hay : List Char) : Bool :=
  needle.reverse.isPrefixOf hay.reverse

/-- `SENSITIVE_KEY_PATTERN.test(keyPath)` (doctor.ts lines 23-24): the
case-insensitive unanchored alternation over the secret keywords (the
same keyword group as `SECRET_VALUE_PATTERN`), i.e. a case-insensitive
substring test. -/
def sensitiveKeyTest (keyPath : String) : Bool :=
  secretKeywords.any fun kw => containsSeq kw (lowerChars keyPath.data)

/-- `/(^|\.)(USER|username|hostname)$/.test(keyPath)` (doctor.ts line
76): the key path is exactly, or ends in a dot-separated final
component, `USER`, `username` or `hostname`. -/
def userKeyTest (keyPath : String) : Bool :=
  ["USER", "username", "hostname"].any fun w =>
    keyPath = w || endsWithSeq ("." ++ w).data keyPath.data

mutual

/-- A JSON-like value, as traversed by `sanitizeValue` (JS `null` and
`undefined` are both `null` here; numbers and booleans fall through the
final `return value`).  Lists and field lists are their own inductives
so all recursion over the tree is structural. -/
inductive JValue where
  | null
  | str (s : String)
  | num (n : Int)
  | bool (b : Bool)
  | arr (items : JList)
  | obj (fields : JFields)
deriving DecidableEq

/-- The items of a JSON array. -/
inductive JList where
  | nil
  | cons (head : JValue) (tail : JList)
deriving DecidableEq

/-- The fields of a JSON object, in `Object.entries` order. -/
inductive JFields where
  | nil
  | cons (key : String) (val : JValue) (tail : JFields)
deriving DecidableEq

end

mutual

/-- `sanitizeValue` (doctor.ts lines 65-98): null passes through; a
string is replaced by `<redacted>` when the key path matches the
sensitive-key pattern or ends in `USER`/`username`/`hostname`, and is
otherwise passed through `redactPathLikeValue`; arrays and objects
recurse with the extended key path; anything else passes through. -/
def sanitizeValue (v : JValue) (keyPath : String)
    (projectNames piiTerms : List String) : JValue :=
  match v with
  | JValue.null => JValue.null
  | JValue.str s =>
      if sensitiveKeyTest keyPath || userKeyTest keyPath then
        JValue.str "<redacted>"
      else JValue.str (redactPathLikeValue s projectNames piiTerms)
  | JValue.num n => JValue.num n
  | JValue.bool b => JValue.bool b
  | JValue.arr items =>
      JValue.arr (sanitizeItems items 0 keyPath projectNames piiTerms)
  | JValue.obj fields =>
      JValue.obj (sanitizeFields fields keyPath projectNames piiTerms)

/-- The array branch of `sanitizeValue` (doctor.ts lines 82-86): item
`index` gets key path `` `${keyPath}[${index}]` ``. -/
def sanitizeItems (items : JList) (idx : Nat) (keyPath : String)
    (projectNames piiTerms : List String) : JList :=
  match items with
  | JList.nil => JList.nil
  | JList.cons h t =>
      JList.cons
        (sanitizeValue h (keyPath ++ "[" ++ toString idx ++ "]")
          projectNames piiTerms)
        (sanitizeItems t (idx + 1) keyPath projectNames piiTerms)

/-- The object branch of `sanitizeValue` (doctor.ts lines 88-95): field
`entryKey` gets key path `entryKey` at the root and
`` `${keyPath}.${entryKey}` `` below it. -/
def sanitizeFields (fields : JFields) (keyPath : String)
    (projectNames piiTerms : List String) : JFields :=
  match fields with
  | JFields.nil => JFields.nil
  | JFields.cons k v t =>
      JFields.cons k
        (sanitizeValue v (if keyPath = "" then k else keyPath ++ "." ++ k)
          projectNames piiTerms)
        (sanitizeFields t keyPath projectNames piiTerms)

end

/-- One step into the JSON tree: an object field or an array index. -/
inductive PathStep where
  | field (name : String)
  | index (i : Nat)
deriving DecidableEq

mutual

/-- The value at a path in the tree (first field wins on duplicate
keys, as `Object.entries` iteration feeds `find`-like lookup). -/
def getAtPath (v : JValue) (path : List PathStep) : Option JValue :=
  match v, path with
  | v, [] => some v
  | JValue.arr items, PathStep.index i :: rest => getAtIndex items i rest
  | JValue.obj fields, PathStep.field k :: rest => getAtField fields k rest
  | _, _ => none

/-- Array lookup continued at a path. -/
def getAtIndex (items : JList) (i : Nat) (path : List PathStep) :
    Option JValue :=
  match items, i with
  | JList.nil, _ => none
  | JList.cons h _, 0 => getAtPath h path
  | JList.cons _ t, n + 1 => getAtIndex t n path

/-- Object lookup continued at a path. -/
def getAtField (fields : JFields) (key : String) (path : List PathStep) :
    Option JValue :=
  match fields with
  | JFields.nil => none
  | JFields.cons k v t =>
      if k = key then getAtPath v path else getAtField t key path

end

/-- The key path `sanitizeValue` assigns to the value at `path`, starting
from key path `base`: fields extend with `.key` (or start the path at
the root), indexes extend with `[i]`. -/
def renderPath (base : String) : List PathStep → String
  | [] => base
  | PathStep.field k :: rest =>
      renderPath (if base = "" then k else base ++ "." ++ k) rest
  | PathStep.index i :: rest =>
      renderPath (base ++ "[" ++ toString i ++ "]") rest

/-- The redaction gate of `runDoctor` (doctor.ts lines 261-263):
`params.nonRedacted ? doctorInfoRaw : sanitizeValue(doctorInfoRaw, '',
projectNames, piiTerms)`.  `nonRedacted` is an optional boolean; only an
explicit `true` is truthy. -/
def doctorInfoChosen (nonRedacted : Option Bool) (raw : JValue)
    (projectNames piiTerms : List String) : JValue :=
  if nonRedacted = some true then raw
  else sanitizeValue raw "" projectNames piiTerms

mutual

/-- Every string leaf of the tree is sanitized according to its key
path: replaced by `<redacted>` when the rendered key path matches the
sensitive-key pattern or the `USER`/`username`/`hostname` pattern, and
passed through `redactPathLikeValue` otherwise. -/
theorem getAtPath_sanitizeValue (path : List PathStep) (v : JValue) (kp : String)
    (pn pii : List String) (s : String)
    (h : getAtPath v path = some (JValue.str s)) :
    getAtPath (sanitizeValue v kp pn pii) path =
      some (JValue.str
        (if sensitiveKeyTest (renderPath kp path) ||
            userKeyTest (renderPath kp path) then "<redacted>"
          else redactPathLikeValue s pn pii)) := by
  cases path with
  | nil =>
      simp only [getAtPath] at h
      have hv : v = JValue.str s := by
        cases h
        rfl
      subst hv
      by_cases hc : sensitiveKeyTest (renderPath kp []) ||
          userKeyTest (renderPath kp []) <;>
        simp only [renderPath] at hc <;>
        simp [sanitizeValue, getAtPath, renderPath, hc]
  | cons step rest =>
      cases step with
      | index i =>
          cases v with
          | null => simp [getAtPath] at h
          | str s' => simp [getAtPath] at h
          | num n => simp [getAtPath] at h
          | bool b => simp [getAtPath] at h
          | obj fields => simp [getAtPath] at h
          | arr items =>
              simp only [getAtPath] at h
              simp only [sanitizeValue, getAtPath, renderPath]
              simpa using getAtIndex_sanitizeItems rest items 0 i kp pn pii s h
      | field k =>
          cases v with
          | null => simp [getAtPath] at h
          | str s' => simp [getAtPath] at h
          | num n => simp [getAtPath] at h
          | bool b => simp [getAtPath] at h
          | arr items => simp [getAtPath] at h
          | obj fields =>
              simp only [getAtPath] at h
              simp only [sanitizeValue, getAtPath, renderPath]
              exact getAtField_sanitizeFields rest fields k kp pn pii s h
termination_by (path.length, sizeOf v)

/-- Array items are sanitized at the key path `` `${keyPath}[${index}]` ``
(stated with the running offset `j` of `sanitizeItems`). -/
theorem getAtIndex_sanitizeItems (rest : List PathStep) (l : JList) (j i : Nat)
    (kp : String) (pn pii : List String) (s : String)
    (h : getAtIndex l i rest = some (JValue.str s)) :
    getAtIndex (sanitizeItems l j kp pn pii) i rest =
      some (JValue.str
        (if sensitiveKeyTest
              (renderPath (kp ++ "[" ++ toString (j + i) ++ "]") rest) ||
            userKeyTest
              (renderPath (kp ++ "[" ++ toString (j + i) ++ "]") rest)
          then "<redacted>" else redactPathLikeValue s pn pii)) := by
  cases l with
  | nil => simp [getAtIndex] at h
  | cons hd tl =>
      cases i with
      | zero =>
          simp only [getAtIndex] at h
          simp only [sanitizeItems, getAtIndex]
          simpa using getAtPath_sanitizeValue rest hd
            (kp ++ "[" ++ toString j ++ "]") pn pii s h
      | succ n =>
          simp only [getAtIndex] at h
          simp only [sanitizeItems, getAtIndex]
          have harith : j + 1 + n = j + (n + 1) := by omega
          have hrec := getAtIndex_sanitizeItems rest tl (j + 1) n kp pn pii s h
          rw [harith] at hrec
          exact hrec
termination_by (rest.length, sizeOf l)

/-- Object fields are sanitized at the key path `entryKey` (at the
root) or `` `${keyPath}.${entryKey}` ``. -/
theorem getAtField_sanitizeFields (rest : List PathStep) (fs : JFields)
    (k kp : String) (pn pii : List String) (s : String)
    (h : getAtField fs k rest = some (JValue.str s)) :
    getAtField (sanitizeFields fs kp pn pii) k rest =
      some (JValue.str
        (if sensitiveKeyTest
              (renderPath (if kp = "" then k else kp ++ "." ++ k) rest) ||
            userKeyTest
              (renderPath (if kp = "" then k else kp ++ "." ++ k) rest)
          then "<redacted>" else redactPathLikeValue s pn pii)) := by
  cases fs with
  | nil => simp [getAtField] at h
  | cons k0 v0 tl =>
      by_cases hk : k0 = k
      · subst hk
        simp only [getAtField, if_pos rfl] at h
        simp only [sanitizeFields, getAtField, if_pos rfl]
        exact getAtPath_sanitizeValue rest v0
          (if kp = "" then k0 else kp ++ "." ++ k0) pn pii s h
      · simp only [getAtField, if_neg hk] at h
        simp only [sanitizeFields, getAtField, if_neg hk]
        exact getAtField_sanitizeFields rest tl k kp pn pii s h
termination_by (rest.length, sizeOf fs)

end

/-! ## Doctor formatted output (src/mcp/tools/doctor/doctor.ts, lines 167-469)

After the redaction gate, `runDoctor` reads the (possibly sanitized)
`doctorInfo` record back through its fields — modelled by accessors over
the `JValue` tree — while `uiDebuggerGuardMode`, the debugger locals,
`runtimeRegistration` and `xcodeToolsBridge` are interpolated from the
raw, never-sanitized values.  The model is the `showAsciiLogo = false`
instantiation (the MCP handler at line 485 always passes `false`; the
logo is a constant banner). -/

/-- Field lookup in an object's fields (first match). -/
def jFieldLookup (fs : JFields) (k : String) : JValue :=
  match fs with
  | JFields.nil => JValue.null
  | JFields.cons k0 v0 t => if k0 = k then v0 else jFieldLookup t k

/-- JS property read `v[k]` (undefined modelled as `null`). -/
def jField (v : JValue) (k : String) : JValue :=
  match v with
  | JValue.obj fs => jFieldLookup fs k
  | _ => JValue.null

/-- `Object.entries` of an object value. -/
def jEntries (v : JValue) : List (String × JValue) :=
  match v with
  | JValue.obj fs => entriesOf fs
  | _ => []
where
  entriesOf : JFields → List (String × JValue)
    | JFields.nil => []
    | JFields.cons k0 v0 t => (k0, v0) :: entriesOf t

/-- The items of an array value as a Lean list. -/
def jItems (v : JValue) : List JValue :=
  match v with
  | JValue.arr l => itemsOf l
  | _ => []
where
  itemsOf : JList → List JValue
    | JList.nil => []
    | JList.cons h t => h :: itemsOf t

/-- JS template interpolation `${v}` of a primitive value. -/
def jRender (v : JValue) : String :=
  match v with
  | JValue.str s => s
  | JValue.bool b => if b then "true" else "false"
  | JValue.num n => toString n
  | JValue.null => "null"
  | JValue.arr _ => ""
  | JValue.obj _ => "[object Object]"

/-- JS truthiness of a value. -/
def jTruthy (v : JValue) : Bool :=
  match v with
  | JValue.null => false
  | JValue.str s => !s.isEmpty
  | JValue.bool b => b
  | JValue.num n => decide (n ≠ 0)
  | JValue.arr _ => true
  | JValue.obj _ => true

/-- JS `'k' in v`. -/
def jHasField (v : JValue) (k : String) : Bool :=
  match v with
  | JValue.obj fs => hasIn fs
  | _ => false
where
  hasIn : JFields → Bool
    | JFields.nil => false
    | JFields.cons k0 _ t => k0 = k || hasIn t

/-- `x ?? d` on a possibly-null string value. -/
def jStrOr (v : JValue) (d : String) : String :=
  match v with
  | JValue.null => d
  | v => jRender v

/-- The `### Xcode IDE Bridge (mcpbridge)` section (doctor.ts lines
425-437), built from the raw `xcodeToolsBridge` probe result. -/
def xcodeIdeBridgeSectionLines (xtb : XcodeToolsBridgeDoctorInfo) : List String :=
  "\n### Xcode IDE Bridge (mcpbridge)" ::
    (match xtb with
      | XcodeToolsBridgeDoctorInfo.available we bp xr c pid cnt le =>
          ["- Workflow enabled: " ++ (if we then "✅ Yes" else "❌ No"),
            "- mcpbridge path: " ++ (bp.getD "(not found)"),
            "- Xcode running: " ++
              (match xr with
                | some b => if b then "true" else "false"
                | none => "(unknown)"),
            "- Connected: " ++ (if c then "✅ Yes" else "❌ No"),
            "- Bridge PID: " ++
              (match pid with
                | some p => toString p
                | none => "(none)"),
            "- Proxied tools: " ++ toString cnt,
            "- Last error: " ++ le.getD "(none)",
            "- Note: Bridge debug tools (status/sync/disconnect) are only registered when debug: true"]
      | XcodeToolsBridgeDoctorInfo.unavailable reason =>
          ["- Unavailable: " ++ reason])

/-- The formatted doctor output (doctor.ts lines 325-452), as the list
of strings joined with newlines into `formattedOutput`.  `doctorInfo` is
the record after the redaction gate; `uiDebuggerGuardMode`,
`selectedDebuggerBackend`, `lldbDapAvailable`, the runtime registration
values and `xtb` are the raw collaborator values the source template
reads directly. -/
def doctorFormattedLines (doctorInfo : JValue) (nonRedacted : Option Bool)
    (uiDebuggerGuardMode selectedDebuggerBackend : String)
    (lldbDapAvailable : Bool) (runtimeEnabledWorkflows : List String)
    (runtimeRegisteredToolCount : Nat) (runtimeNote : Option String)
    (xtb : XcodeToolsBridgeDoctorInfo) : List String :=
  let features := jField doctorInfo "features"
  let axe := jField features "axe"
  let xcodemake := jField features "xcodemake"
  let mise := jField features "mise"
  let dap := jField (jField features "debugger") "dap"
  let envv := jField doctorInfo "environmentVariables"
  let manifestTools := jField doctorInfo "manifestTools"
  let xcode := jField doctorInfo "xcode"
  let dapSelected := selectedDebuggerBackend = "dap"
  ["XcodeBuildMCP Doctor",
    "\nGenerated: " ++ jRender (jField doctorInfo "timestamp"),
    "Server Version: " ++ jRender (jField doctorInfo "serverVersion"),
    "Output Mode: " ++
      (if nonRedacted = some true then "⚠️ Non-redacted (opt-in)"
        else "Redacted (default)"),
    "\n## System Information"] ++
  (jEntries (jField doctorInfo "system")).map
    (fun kv => "- " ++ kv.1 ++ ": " ++ jRender kv.2) ++
  ["\n## Node.js Information"] ++
  (jEntries (jField doctorInfo "node")).map
    (fun kv => "- " ++ kv.1 ++ ": " ++ jRender kv.2) ++
  ["\n## Process Tree",
    "- Running under Xcode: " ++
      (if jTruthy (jField doctorInfo "runningUnderXcode") then "✅ Yes"
        else "❌ No")] ++
  (if (jItems (jField doctorInfo "processTree")).length > 0 then
    (jItems (jField doctorInfo "processTree")).map fun entry =>
      "- " ++ jRender (jField entry "pid") ++ " (ppid " ++
        jRender (jField entry "ppid") ++ "): " ++
        jRender (jField entry "name") ++
        (if jTruthy (jField entry "command") then
          " — " ++ jRender (jField entry "command")
        else "")
  else ["- (unavailable)"]) ++
  (if jTruthy (jField doctorInfo "processTreeError") then
    ["- Error: " ++ jRender (jField doctorInfo "processTreeError")]
  else []) ++
  ["\n## Xcode Information"] ++
  (if jHasField xcode "error" then
    ["- Error: " ++ jRender (jField xcode "error")]
  else (jEntries xcode).map fun kv => "- " ++ kv.1 ++ ": " ++ jRender kv.2) ++
  ["\n## Dependencies"] ++
  (jEntries (jField doctorInfo "dependencies")).map
    (fun kv => "- " ++ kv.1 ++ ": " ++
      (if jTruthy (jField kv.2 "available") then
        "✅ " ++ jStrOr (jField kv.2 "version") "Available"
      else "❌ Not found")) ++
  ["\n## Environment Variables"] ++
  ((jEntries envv).filter
      (fun kv => kv.1 ≠ "PATH" && kv.1 ≠ "PYTHONPATH")).map
    (fun kv => "- " ++ kv.1 ++ ": " ++ jStrOr kv.2 "(not set)") ++
  ["\n### PATH",
    "```",
    String.intercalate "\n"
      ((splitOnChar ':' (jStrOr (jField envv "PATH") "(not set)").data).map
        String.mk),
    "```",
    "\n## Feature Status",
    "\n### UI Automation (axe)",
    "- Available: " ++
      (if jTruthy (jField axe "available") then "✅ Yes" else "❌ No"),
    "- UI Automation Supported: " ++
      (if jTruthy (jField axe "uiAutomationSupported") then "✅ Yes"
        else "❌ No"),
    "- Simulator Video Capture Supported (AXe >= 1.1.0): " ++
      (if jTruthy (jField axe "videoCaptureSupported") then "✅ Yes"
        else "❌ No"),
    "- UI-Debugger Guard Mode: " ++ uiDebuggerGuardMode,
    "\n### Incremental Builds",
    "- Enabled: " ++
      (if jTruthy (jField xcodemake "enabled") then "✅ Yes" else "❌ No"),
    "- xcodemake Binary Available: " ++
      (if jTruthy (jField xcodemake "binaryAvailable") then "✅ Yes"
        else "❌ No"),
    "- Makefile exists (cwd): " ++
      (match jField xcodemake "makefileExists" with
        | JValue.null => "(not checked: incremental builds disabled)"
        | v => if jTruthy v then "✅ Yes" else "❌ No"),
    "\n### Mise Integration",
    "- Running under mise: " ++
      (if jTruthy (jField mise "running_under_mise") then "✅ Yes"
        else "❌ No"),
    "- Mise available: " ++
      (if jTruthy (jField mise "available") then "✅ Yes" else "❌ No"),
    "\n### Debugger Backend (DAP)",
    "- lldb-dap available: " ++
      (if jTruthy (jField dap "available") then "✅ Yes" else "❌ No"),
    "- Selected backend: " ++ jRender (jField dap "selected")] ++
  (if dapSelected && !lldbDapAvailable then
    ["- Warning: DAP backend selected but lldb-dap not available. Set XCODEBUILDMCP_DEBUGGER_BACKEND=lldb-cli to use the CLI backend."]
  else []) ++
  ["\n### Manifest Tool Inventory"] ++
  (if jHasField manifestTools "error" then
    ["- Error: " ++ jRender (jField manifestTools "error")]
  else
    ["- Total Unique Tools: " ++ jRender (jField manifestTools "totalTools"),
      "- Workflow Count: " ++ jRender (jField manifestTools "workflowCount")] ++
    (jEntries (jField manifestTools "toolsByWorkflow")).map
      (fun kv => "- " ++ kv.1 ++ ": " ++ jRender kv.2 ++ " tools")) ++
  ["\n### Runtime Tool Registration",
    "- Enabled Workflows: " ++ toString runtimeEnabledWorkflows.length,
    "- Registered Tools: " ++ toString runtimeRegisteredToolCount] ++
  (match runtimeNote with
    | some note => ["- Note: " ++ note]
    | none => []) ++
  (if runtimeEnabledWorkflows.length > 0 then
    ["- Workflows: " ++ String.intercalate ", " runtimeEnabledWorkflows]
  else []) ++
  xcodeIdeBridgeSectionLines xtb ++
  ["\n## Tool Availability Summary",
    "- Build Tools: " ++
      (if !jHasField xcode "error" then "✅ Available" else "❌ Not available"),
    "- UI Automation Tools: " ++
      (if jTruthy (jField axe "uiAutomationSupported") then "✅ Available"
        else "❌ Not available"),
    "- Incremental Build Support: " ++
      (if jTruthy (jField xcodemake "binaryAvailable") &&
          jTruthy (jField xcodemake "enabled") then "✅ Available & Enabled"
        else if jTruthy (jField xcodemake "binaryAvailable") then
          "✅ Available but Disabled"
        else "❌ Not available"),
    "\n## Sentry",
    "- Sentry enabled: " ++
      (if jField envv "SENTRY_DISABLED" ≠ JValue.str "true" then "✅ Yes"
        else "❌ No"),
    "\n## Troubleshooting Tips",
    "- If UI automation tools are not available, install axe: `brew tap cameroncooke/axe && brew install axe`",
    "- If incremental build support is not available, install xcodemake (https://github.com/cameroncooke/xcodemake) and ensure it is executable and available in your PATH",
    "- To enable xcodemake, set environment variable: `export INCREMENTAL_BUILDS_ENABLED=1`",
    "- For mise integration, follow instructions in the README.md file"]

/-- `runDoctor`'s formatted output text: the gate chooses raw or
sanitized `doctorInfo` (doctor.ts lines 261-263), the template renders
it (lines 332-452), and the lines are joined with newlines. -/
def runDoctorFormattedText (raw : JValue) (nonRedacted : Option Bool)
    (projectNames piiTerms : List String)
    (uiDebuggerGuardMode selectedDebuggerBackend : String)
    (lldbDapAvailable : Bool) (runtimeEnabledWorkflows : List String)
    (runtimeRegisteredToolCount : Nat) (runtimeNote : Option String)
    (xtb : XcodeToolsBridgeDoctorInfo) : String :=
  String.intercalate "\n"
    (doctorFormattedLines (doctorInfoChosen nonRedacted raw projectNames piiTerms)
      nonRedacted uiDebuggerGuardMode selectedDebuggerBackend lldbDapAvailable
      runtimeEnabledWorkflows runtimeRegisteredToolCount runtimeNote xtb)

/-- Whether a string contains an unredacted home-directory path: an
occurrence of `/Users/` followed by a nonempty run of non-separator
characters other than the `<redacted>` marker — the matches of
`USER_HOME_PATH_PATTERN` that redaction would have replaced. -/
def rawUserScan : Nat → List Char → Bool
  | 0, _ => false
  | _ + 1, [] => false
  | fuel + 1, c :: rest =>
      let l := c :: rest
      (if "/Users/".data.isPrefixOf l then
        let run := (l.drop 7).takeWhile (fun ch => !(ch = '/' || isSpaceChar ch))
        !run.isEmpty && run ≠ "<redacted>".data
      else false) ||
        rawUserScan fuel rest

/-- Executable form of "every home-directory path in this string is
redacted" failing. -/
def containsRawUserPath (s : String) : Bool :=
  rawUserScan s.data.length s.data

/-- A concrete `doctorInfoRaw` record (doctor.ts lines 210-244 shape):
a hostname, a `HOME` environment variable under `/Users/bob`, and error
states for the probed collaborators. -/
def rawDoctorExample : JValue :=
  JValue.obj
    (JFields.cons "serverVersion" (JValue.str "2.0.0")
      (JFields.cons "timestamp" (JValue.str "2026-10-12T00:00:00.000Z")
        (JFields.cons "system"
          (JValue.obj (JFields.cons "hostname" (JValue.str "mymac.local") JFields.nil))
          (JFields.cons "node" (JValue.obj JFields.nil)
            (JFields.cons "processTree" (JValue.arr JList.nil)
              (JFields.cons "runningUnderXcode" (JValue.bool false)
                (JFields.cons "xcode"
                  (JValue.obj
                    (JFields.cons "error" (JValue.str "xcodebuild not found") JFields.nil))
                  (JFields.cons "dependencies" (JValue.obj JFields.nil)
                    (JFields.cons "environmentVariables"
                      (JValue.obj
                        (JFields.cons "HOME" (JValue.str "/Users/bob") JFields.nil))
                      (JFields.cons "features" (JValue.obj JFields.nil)
                        (JFields.cons "manifestTools"
                          (JValue.obj
                            (JFields.cons "error" (JValue.str "no manifest") JFields.nil))
                          JFields.nil)))))))))))

/-- A concrete bridge status whose `lastError` carries a home-directory
path, as a failed connect to a bridge log under the user's home produces. -/
def xtbLeakExample : XcodeToolsBridgeDoctorInfo :=
  XcodeToolsBridgeDoctorInfo.available false none none false none 0
    (some "/Users/bob/Library/mcpbridge.log: connect ECONNREFUSED")

set_option maxRecDepth 20000 in
/-- **C9, counterexample.** With redaction on (`nonRedacted` absent), the
formatted doctor output still contains an unredacted home-directory
path: the bridge `lastError` is interpolated from the raw probe result
(doctor.ts line 434), outside the sanitized `doctorInfo` record, so the
output is not fully sanitized — refuting the claim as stated at this
concrete input. -/
theorem doctor_output_not_fully_sanitized :
    ("- Last error: /Users/bob/Library/mcpbridge.log: connect ECONNREFUSED") ∈
      doctorFormattedLines (doctorInfoChosen none rawDoctorExample [] []) none
        "strict" "dap" false [] 0 none xtbLeakExample ∧
    containsRawUserPath
      "- Last error: /Users/bob/Library/mcpbridge.log: connect ECONNREFUSED" = true ∧
    runDoctorFormattedText rawDoctorExample none [] [] "strict" "dap" false
        [] 0 none xtbLeakExample =
      String.intercalate "\n"
        (doctorFormattedLines (doctorInfoChosen none rawDoctorExample [] []) none
          "strict" "dap" false [] 0 none xtbLeakExample) := by
  refine ⟨by decide, by decide, rfl⟩

/-- **C9, amended.** For every doctor invocation where `nonRedacted` is
absent or false, the `doctorInfoRaw` record is sanitized: every string
value in it whose key path matches the sensitive-key pattern or whose
key is `USER`, `username` or `hostname` is replaced verbatim by
`<redacted>`, every remaining string value in it is passed through the
home-directory/project-name/PII/secret redaction, and the raw record is
used only when `nonRedacted` is explicitly true.  (Strings interpolated
from outside that record — bridge status, runtime registration, guard
mode — bypass this sanitization, per the counterexample.) -/
theorem doctor_sanitization_scoped :
    (∀ (nr : Option Bool) (raw : JValue) (pn pii : List String),
      nr ≠ some true →
      doctorInfoChosen nr raw pn pii = sanitizeValue raw "" pn pii) ∧
    (∀ (raw : JValue) (pn pii : List String),
      doctorInfoChosen (some true) raw pn pii = raw) ∧
    (∀ (path : List PathStep) (v : JValue) (pn pii : List String) (s : String),
      getAtPath v path = some (JValue.str s) →
      getAtPath (sanitizeValue v "" pn pii) path =
        some (JValue.str
          (if sensitiveKeyTest (renderPath "" path) ||
              userKeyTest (renderPath "" path) then "<redacted>"
            else redactPathLikeValue s pn pii))) := by
  refine ⟨fun nr raw pn pii hnr => ?_, fun raw pn pii => ?_, ?_⟩
  · simp [doctorInfoChosen, hnr]
  · simp [doctorInfoChosen]
  · intro path v pn pii s h
    exact getAtPath_sanitizeValue path v "" pn pii s h

/-- Closed witness for `doctor_sanitization_scoped`: in a concrete
record, the sensitive env var `environmentVariables.MY_TOKEN` comes out
verbatim `<redacted>`, a plain string leaf gets its home path redacted,
and the raw record survives only under explicit `nonRedacted := true`. -/
theorem doctor_sanitization_scoped_witness :
    getAtPath
        (sanitizeValue
          (JValue.obj
            (JFields.cons "environmentVariables"
              (JValue.obj (JFields.cons "MY_TOKEN" (JValue.str "hunter2") JFields.nil))
              (JFields.cons "log" (JValue.str "saved to /Users/bob/out.txt")
                JFields.nil)))
          "" [] [])
        [PathStep.field "environmentVariables", PathStep.field "MY_TOKEN"] =
      some (JValue.str "<redacted>") ∧
    getAtPath
        (sanitizeValue
          (JValue.obj
            (JFields.cons "environmentVariables"
              (JValue.obj (JFields.cons "MY_TOKEN" (JValue.str "hunter2") JFields.nil))
              (JFields.cons "log" (JValue.str "saved to /Users/bob/out.txt")
                JFields.nil)))
          "" [] [])
        [PathStep.field "log"] =
      some (JValue.str "saved to /Users/<redacted>/out.txt") ∧
    doctorInfoChosen (some true) (JValue.str "raw") [] [] = JValue.str "raw" ∧
    doctorInfoChosen none (JValue.str "raw") [] [] =
      sanitizeValue (JValue.str "raw") "" [] [] := by
  have h := doctor_sanitization_scoped
  refine ⟨?_, ?_, h.2.1 (JValue.str "raw") [] [], h.1 none (JValue.str "raw") [] []
    (by decide)⟩
  · have hx := h.2.2 [PathStep.field "environmentVariables", PathStep.field "MY_TOKEN"]
      (JValue.obj
        (JFields.cons "environmentVariables"
          (JValue.obj (JFields.cons "MY_TOKEN" (JValue.str "hunter2") JFields.nil))
          (JFields.cons "log" (JValue.str "saved to /Users/bob/out.txt")
            JFields.nil)))
      [] [] "hunter2" (by decide)
    have hc : (sensitiveKeyTest
        (renderPath "" [PathStep.field "environmentVariables", PathStep.field "MY_TOKEN"]) ||
          userKeyTest
            (renderPath "" [PathStep.field "environmentVariables", PathStep.field "MY_TOKEN"])) =
        true := by decide
    rw [hc] at hx
    simpa using hx
  · have hx := h.2.2 [PathStep.field "log"]
      (JValue.obj
        (JFields.cons "environmentVariables"
          (JValue.obj (JFields.cons "MY_TOKEN" (JValue.str "hunter2") JFields.nil))
          (JFields.cons "log" (JValue.str "saved to /Users/bob/out.txt")
            JFields.nil)))
      [] [] "saved to /Users/bob/out.txt" (by decide)
    have hc : (sensitiveKeyTest (renderPath "" [PathStep.field "log"]) ||
        userKeyTest (renderPath "" [PathStep.field "log"])) = false := by decide
    rw [hc] at hx
    have hred : redactPathLikeValue "saved to /Users/bob/out.txt" [] [] =
        "saved to /Users/<redacted>/out.txt" := by decide
    rw [if_neg (by simp)] at hx
    rw [hred] at hx
    exact hx

end Spec2Proof
